import Mathlib

/-!
# LoyaltyLedger — formal model of the job-processing and ledger engine

A shallow embedding, in Lean 4, of the core of the loyaltyledger repository:
the balanced-entry ledger validator and journal writer, the default earn and
redeem plugins, the largest-remainder distribution, FIFO point-lot
consumption, the job processor for the receipt and redeem job tables, and the
notification dispatcher.

Conventions of the embedding:
* JavaScript bigint values are modelled as `Int`; JavaScript number values
  that take part in exact arithmetic (grand totals, multipliers, weights) are
  modelled as `Rat` (float rounding is out of scope).
* Timestamps are abstract milliseconds since the epoch, modelled as `Int`.
* SQL tables are lists of row structures carried in an explicit state record;
  a query is a pure function of that state.
* A JavaScript function that can throw is modelled with `Except String`,
  the error payload being the thrown message.
-/

namespace LoyaltyLedger

/-! ## Core ledger data model (packages/core/src/ledger.ts) -/

/-- One line of a ledger entry (`LedgerLine` in packages/core/src/ledger.ts):
bigint debit and credit in a named unit against an account. -/
structure LedgerLine where
  accountId : String
  debit : Int
  credit : Int
  unit : String
deriving Repr, DecidableEq

/-- A ledger entry (`LedgerEntry` in packages/core/src/ledger.ts). -/
structure LedgerEntry where
  programId : String
  memo : Option String
  receiptId : Option String
  lines : List LedgerLine
deriving Repr, DecidableEq

/-- Sum of the debits of all lines of an entry, over every unit. -/
def totalDebit (e : LedgerEntry) : Int :=
  (e.lines.map LedgerLine.debit).sum

/-- Sum of the credits of all lines of an entry, over every unit. -/
def totalCredit (e : LedgerEntry) : Int :=
  (e.lines.map LedgerLine.credit).sum

/-- Sum of the debits of the lines of an entry that carry a given unit
(used to state the per-unit balance property of the specification; the
source computes only the whole-entry totals). -/
def unitDebit (e : LedgerEntry) (u : String) : Int :=
  ((e.lines.filter (fun l => l.unit = u)).map LedgerLine.debit).sum

/-- Sum of the credits of the lines of an entry that carry a given unit. -/
def unitCredit (e : LedgerEntry) (u : String) : Int :=
  ((e.lines.filter (fun l => l.unit = u)).map LedgerLine.credit).sum

/-- `ensureBalanced` from packages/core/src/ledger.ts: throws when the total
debit of all lines differs from the total credit of all lines. The sums run
over the whole entry, with no grouping by unit. -/
def ensureBalanced (e : LedgerEntry) : Except String Unit :=
  if totalDebit e ≠ totalCredit e then
    Except.error "Ledger entry is not balanced"
  else
    Except.ok ()

/-- A row of the ledger_journal table. -/
structure JournalRow where
  entryId : String
  tenantId : String
  programId : String
  receiptId : Option String
  memo : Option String
deriving Repr, DecidableEq

/-- A row of the ledger_lines table. -/
structure LineRow where
  entryId : String
  lineNo : Nat
  accountId : String
  dr : Int
  cr : Int
  unit : String
deriving Repr, DecidableEq

/-- The rows inserted for the lines of one entry from line number `k` on
(the inner loop of `postLedgerEntries`). -/
def lineRowsAux (entryId : String) (k : Nat) : List LedgerLine → List LineRow
  | [] => []
  | l :: ls => ⟨entryId, k, l.accountId, l.debit, l.credit, l.unit⟩ :: lineRowsAux entryId (k + 1) ls

/-- The rows inserted for the lines of one entry, with line_no starting at 1
in input order. -/
def lineRowsOf (entryId : String) (lines : List LedgerLine) : List LineRow :=
  lineRowsAux entryId 1 lines

/-- `postLedgerEntries` from apps/rule-runner/src/ledger.ts. Entries with no
lines are skipped with a `continue`; every other entry is validated with
`ensureBalanced` (a failure propagates) and then written as one journal row
plus its line rows. `gen` supplies the fresh ids produced by `generateId`,
indexed by the running count `n` of ids drawn so far. Returns the entry ids
in input order together with the inserted journal and line rows. -/
def postLedgerEntries (gen : Nat → String) (tenantId : String) :
    List LedgerEntry → Nat → Except String (List String × List JournalRow × List LineRow)
  | [], _ => Except.ok ([], [], [])
  | e :: rest, n =>
    if e.lines.length = 0 then
      postLedgerEntries gen tenantId rest n
    else
      match ensureBalanced e with
      | Except.error m => Except.error m
      | Except.ok () =>
        match postLedgerEntries gen tenantId rest (n + 1) with
        | Except.error m => Except.error m
        | Except.ok (ids, journal, lineRows) =>
          let eid := gen n
          Except.ok (eid :: ids, ⟨eid, tenantId, e.programId, e.receiptId, e.memo⟩ :: journal,
            lineRowsOf eid e.lines ++ lineRows)

/-- Total debit booked in a list of ledger_lines rows under one entry id. -/
def rowsDebit (rows : List LineRow) (eid : String) : Int :=
  ((rows.filter (fun r => r.entryId = eid)).map LineRow.dr).sum

/-- Total credit booked in a list of ledger_lines rows under one entry id. -/
def rowsCredit (rows : List LineRow) (eid : String) : Int :=
  ((rows.filter (fun r => r.entryId = eid)).map LineRow.cr).sum

lemma lineRowsAux_filter_self (eid : String) (k : Nat) (lines : List LedgerLine) :
    (lineRowsAux eid k lines).filter (fun r => r.entryId = eid) = lineRowsAux eid k lines := by
  induction lines generalizing k with
  | nil => rfl
  | cons l ls ih => simp [lineRowsAux, List.filter, ih]

lemma lineRowsAux_filter_ne (eid eid2 : String) (h : eid ≠ eid2) (k : Nat)
    (lines : List LedgerLine) :
    (lineRowsAux eid k lines).filter (fun r => r.entryId = eid2) = [] := by
  induction lines generalizing k with
  | nil => rfl
  | cons l ls ih => simp [lineRowsAux, List.filter, h, ih]

lemma lineRowsAux_map_dr (eid : String) (k : Nat) (lines : List LedgerLine) :
    ((lineRowsAux eid k lines).map LineRow.dr).sum = (lines.map LedgerLine.debit).sum := by
  induction lines generalizing k with
  | nil => rfl
  | cons l ls ih => simp [lineRowsAux, ih]

lemma lineRowsAux_map_cr (eid : String) (k : Nat) (lines : List LedgerLine) :
    ((lineRowsAux eid k lines).map LineRow.cr).sum = (lines.map LedgerLine.credit).sum := by
  induction lines generalizing k with
  | nil => rfl
  | cons l ls ih => simp [lineRowsAux, ih]

lemma rowsDebit_append (a b : List LineRow) (eid : String) :
    rowsDebit (a ++ b) eid = rowsDebit a eid + rowsDebit b eid := by
  simp [rowsDebit, List.filter_append]

lemma rowsCredit_append (a b : List LineRow) (eid : String) :
    rowsCredit (a ++ b) eid = rowsCredit a eid + rowsCredit b eid := by
  simp [rowsCredit, List.filter_append]

lemma ensureBalanced_ok_iff (e : LedgerEntry) :
    ensureBalanced e = Except.ok () ↔ totalDebit e = totalCredit e := by
  by_cases h : totalDebit e = totalCredit e <;> simp [ensureBalanced, h]

lemma rowsDebit_lineRowsOf (eid eid2 : String) (lines : List LedgerLine) :
    rowsDebit (lineRowsOf eid lines) eid2 =
      if eid = eid2 then (lines.map LedgerLine.debit).sum else 0 := by
  by_cases h : eid = eid2
  · subst h
    simp [rowsDebit, lineRowsOf, lineRowsAux_filter_self, lineRowsAux_map_dr]
  · simp [rowsDebit, lineRowsOf, lineRowsAux_filter_ne eid eid2 h, h]

lemma rowsCredit_lineRowsOf (eid eid2 : String) (lines : List LedgerLine) :
    rowsCredit (lineRowsOf eid lines) eid2 =
      if eid = eid2 then (lines.map LedgerLine.credit).sum else 0 := by
  by_cases h : eid = eid2
  · subst h
    simp [rowsCredit, lineRowsOf, lineRowsAux_filter_self, lineRowsAux_map_cr]
  · simp [rowsCredit, lineRowsOf, lineRowsAux_filter_ne eid eid2 h, h]

/-- Every batch of line rows written by `postLedgerEntries` balances, entry id
by entry id, as whole-entry totals. -/
lemma postLedgerEntries_balanced (gen : Nat → String) (t : String)
    (entries : List LedgerEntry) (n : Nat)
    (ids : List String) (journal : List JournalRow) (rows : List LineRow)
    (h : postLedgerEntries gen t entries n = Except.ok (ids, journal, rows))
    (eid : String) : rowsDebit rows eid = rowsCredit rows eid := by
  induction entries generalizing n ids journal rows with
  | nil =>
    simp [postLedgerEntries] at h
    obtain ⟨-, -, h3⟩ := h
    subst h3
    rfl
  | cons e rest ih =>
    by_cases hempty : e.lines.length = 0
    · rw [postLedgerEntries, if_pos hempty] at h
      exact ih n ids journal rows h
    · rw [postLedgerEntries, if_neg hempty] at h
      rcases hbal : ensureBalanced e with m | u
      · rw [hbal] at h; exact absurd h (by simp)
      · rw [hbal] at h
        rcases hrest : postLedgerEntries gen t rest (n + 1) with m | out
        · rw [hrest] at h; exact absurd h (by simp)
        · obtain ⟨ids2, journal2, rows2⟩ := out
          rw [hrest] at h
          simp only [Except.ok.injEq, Prod.mk.injEq] at h
          obtain ⟨-, -, hrows⟩ := h
          subst hrows
          have hbal2 : totalDebit e = totalCredit e := (ensureBalanced_ok_iff e).mp hbal
          have := ih (n + 1) ids2 journal2 rows2 hrest
          rw [rowsDebit_append, rowsCredit_append, rowsDebit_lineRowsOf, rowsCredit_lineRowsOf,
            this]
          by_cases hid : gen n = eid
          · simp [hid, totalDebit, totalCredit] at hbal2 ⊢
            try omega
          · simp [hid, totalDebit, totalCredit] at hbal2 ⊢
            try omega

/-- An entry mixing two units, each unit unbalanced on its own, but with the
whole-entry totals equal. -/
def mixedUnitEntry : LedgerEntry :=
  ⟨"default_points", none, none,
    [⟨"t::acct::a", 5, 0, "points"⟩, ⟨"t::acct::a", 0, 5, "stamps:s"⟩]⟩

/-- An entry with no lines at all. -/
def noLinesEntry : LedgerEntry := ⟨"default_points", none, none, []⟩

/-- C2, counterexample. The validator does not check balance per unit and
does not reject empty entries: `mixedUnitEntry` is unbalanced inside the unit
points (debit 5, credit 0), yet `ensureBalanced` accepts it because the
whole-entry totals agree; and posting a batch holding only the line-less
`noLinesEntry` succeeds with no rows written instead of failing with
EmptyEntry. -/
theorem claim_C2_counterexample :
    unitDebit mixedUnitEntry "points" ≠ unitCredit mixedUnitEntry "points" ∧
    ensureBalanced mixedUnitEntry = Except.ok () ∧
    postLedgerEntries (fun _ => "id0") "t" [noLinesEntry] 0 = Except.ok ([], [], []) := by
  refine ⟨by decide, rfl, rfl⟩

/-- C2, amended. `ensureBalanced` fails exactly when the sum of debits over
all lines of the entry differs from the sum of credits over all lines — the
totals are whole-entry, not per unit — and `postLedgerEntries` silently skips
entries with no lines rather than failing; consequently, for every entry id,
the line rows a successful `postLedgerEntries` call writes satisfy
Σdebits = Σcredits taken over the whole entry. -/
theorem claim_C2_amended (e : LedgerEntry) (gen : Nat → String) (t : String)
    (entries : List LedgerEntry) (n : Nat)
    (ids : List String) (journal : List JournalRow) (rows : List LineRow)
    (hpost : postLedgerEntries gen t entries n = Except.ok (ids, journal, rows)) :
    (ensureBalanced e = Except.ok () ↔ totalDebit e = totalCredit e) ∧
    (e.lines = [] →
      postLedgerEntries gen t (e :: entries) n = postLedgerEntries gen t entries n) ∧
    (∀ eid : String, rowsDebit rows eid = rowsCredit rows eid) := by
  refine ⟨ensureBalanced_ok_iff e, ?_, ?_⟩
  · intro hnil
    rw [postLedgerEntries, if_pos (by simp [hnil])]
  · intro eid
    exact postLedgerEntries_balanced gen t entries n ids journal rows hpost eid

/-- C2, witness for the amended theorem: a concrete balanced two-unit batch. -/
theorem claim_C2_amended_witness :
    (ensureBalanced noLinesEntry = Except.ok () ↔
      totalDebit noLinesEntry = totalCredit noLinesEntry) ∧
    (noLinesEntry.lines = [] →
      postLedgerEntries (fun _ => "id0") "t" (noLinesEntry :: [mixedUnitEntry]) 0 =
        postLedgerEntries (fun _ => "id0") "t" [mixedUnitEntry] 0) ∧
    (∀ eid : String,
      rowsDebit (lineRowsOf "id0" mixedUnitEntry.lines) eid =
        rowsCredit (lineRowsOf "id0" mixedUnitEntry.lines) eid) :=
  claim_C2_amended noLinesEntry (fun _ => "id0") "t" [mixedUnitEntry] 0
    ["id0"] [⟨"id0", "t", "default_points", none, none⟩]
    (lineRowsOf "id0" mixedUnitEntry.lines) rfl

/-! ## Account id conventions (packages/core/src/accounts.ts) -/

/-- The merchant liability account of a tenant. -/
def merchantAccountId (tenantId : String) : String :=
  tenantId ++ "::merchant_liability"

/-- The ledger account of one customer of a tenant. -/
def customerAccountId (tenantId accountRef : String) : String :=
  tenantId ++ "::acct::" ++ accountRef

/-! ## Redemption allocation (apps/rule-runner/src/plugins/default-redeem.ts) -/

/-- A partner candidate for allocation; the weight is a JS number. -/
structure Partner where
  accountId : String
  weight : ℚ
deriving Repr, DecidableEq

/-- One allocation line: a bigint amount credited to a partner account. -/
structure Alloc where
  accountId : String
  amount : Int
deriving Repr, DecidableEq

/-- One item of the outstanding attribution returned by the redeem helpers:
an eligible bigint amount per partner account. The bps field is doubly
optional: the rules path always sets it (to the adjustment or to null), the
fallback path leaves it absent. -/
structure AttributionItem where
  accountId : String
  amount : Int
  settlementAdjustmentBps : Option (Option Int)
deriving Repr, DecidableEq

/-- JS Math.floor on an exact rational. -/
def mathFloor (x : ℚ) : Int := ⌊x⌋

/-- The partner-hint reordering inside `determineAllocation`: when the hinted
partner is found at an index greater than zero it is spliced out and pushed
to the front. -/
def applyHint (hint : Option String) (ps : List Partner) : List Partner :=
  match hint with
  | none => ps
  | some h =>
    match ps.findIdx? (fun p => p.accountId = h) with
    | some i =>
      if hlt : 0 < i ∧ i < ps.length then
        ps.get ⟨i, hlt.2⟩ :: ps.eraseIdx i
      else ps
    | none => ps

/-- The body of the map in the proportional branch of `determineAllocation`:
every partner except the last gets the floored proportional share, the last
gets the total minus what was allocated so far, and a negative amount is
clamped to zero. Returns the lines together with the final allocated sum. -/
def propLoop (T : Int) (W : ℚ) : List Partner → Int → List Alloc × Int
  | [], allocated => ([], allocated)
  | [p], allocated =>
    let amount := T - allocated
    let amount := if amount < 0 then 0 else amount
    ([⟨p.accountId, amount⟩], allocated + amount)
  | p :: q :: rest, allocated =>
    let amount := mathFloor ((T : ℚ) * p.weight / W)
    let amount := if amount < 0 then 0 else amount
    let res := propLoop T W (q :: rest) (allocated + amount)
    (⟨p.accountId, amount⟩ :: res.1, res.2)

/-- Adds a delta to the amount of the last line (the post-loop fix-up
`lines[lines.length - 1].amount += diff`). -/
def addToLast (d : Int) : List Alloc → List Alloc
  | [] => []
  | [a] => [⟨a.accountId, a.amount + d⟩]
  | a :: rest => a :: addToLast d rest

/-- Input record of `determineAllocation`. The strategy is carried as the
raw string read from program config; partnerHint models
`redeem.partner_hint`. -/
structure AllocationInput where
  tenantId : String
  pointsToBurn : Int
  partners : List Partner
  strategy : String
  partnerHint : Option String

/-- `determineAllocation` from default-redeem.ts. With no partners the whole
redemption goes to the tenant merchant-liability account. The priority
branch (also taken whenever a partner hint is present) allocates everything
to the first partner after hint reordering. The proportional branch floors
each share and gives the last partner the remainder; any difference between
the allocated sum and the total is added to the last line. Any other
strategy string allocates everything to the first partner. -/
def determineAllocation (inp : AllocationInput) : List Alloc :=
  match inp.partners with
  | [] => [⟨merchantAccountId inp.tenantId, inp.pointsToBurn⟩]
  | p0 :: rest =>
    if inp.strategy = "priority" ∨ inp.partnerHint.isSome then
      match applyHint inp.partnerHint (p0 :: rest) with
      | [] => []
      | q :: _ => if inp.pointsToBurn ≤ 0 then [] else [⟨q.accountId, inp.pointsToBurn⟩]
    else if inp.strategy = "proportional" then
      let W := ((p0 :: rest).map Partner.weight).sum
      if W ≤ 0 then [⟨p0.accountId, inp.pointsToBurn⟩]
      else
        let res := propLoop inp.pointsToBurn W (p0 :: rest) 0
        if res.2 ≠ inp.pointsToBurn then addToLast (inp.pointsToBurn - res.2) res.1 else res.1
    else [⟨p0.accountId, inp.pointsToBurn⟩]

/-! ## Largest-remainder distribution (`proportionalByWeights`) -/

/-- An input entry of `proportionalByWeights`: a bigint weight per account. -/
structure WeightEntry where
  accountId : String
  weight : Int
deriving Repr, DecidableEq

/-- The floored share record built for every entry: account, floor, and the
remainder of the bigint division (BigInt division truncates toward zero,
modelled by `Int.tdiv` and `Int.tmod`). -/
structure FloorShare where
  accountId : String
  floor : Int
  rem : Int
deriving Repr, DecidableEq

/-- The comparison the source passes to Array.prototype.sort: descending by
remainder, 0 on ties. Array.prototype.sort is stable, so sorting is modelled
by a stable insertion sort with this boolean kept-before relation: an
element stays before the next one when its remainder is at least as large. -/
def remGE (a b : FloorShare) : Bool := b.rem ≤ a.rem

/-- Stable insert: `x` goes after every already-placed element it does not
strictly beat. -/
def insertStable {α : Type} (le : α → α → Bool) (x : α) : List α → List α
  | [] => [x]
  | y :: ys => if le y x then y :: insertStable le x ys else x :: y :: ys

/-- Stable insertion sort. -/
def sortStable {α : Type} (le : α → α → Bool) : List α → List α
  | [] => []
  | x :: xs => insertStable le x (sortStable le xs)

/-- One remainder unit handed to a share. -/
def bumpShare (f : FloorShare) : FloorShare := ⟨f.accountId, f.floor + 1, f.rem⟩

/-- Adds one to the floor of the element at position `i`. -/
def bumpAt (i : Nat) : List FloorShare → List FloorShare
  | [] => []
  | x :: xs =>
    match i with
    | 0 => bumpShare x :: xs
    | j + 1 => x :: bumpAt j xs

/-- The remainder loop of `proportionalByWeights`: iteration `i` increments
the floor at index `i % length` (`floors[Number(i % BigInt(floors.length))]`).
`k` counts the iterations already performed. -/
def distribRemainder (fuel : Nat) (k : Nat) (l : List FloorShare) : List FloorShare :=
  match fuel with
  | 0 => l
  | fuel + 1 => distribRemainder fuel (k + 1) (bumpAt (k % l.length) l)

/-- `proportionalByWeights` from default-redeem.ts: floor every share of the
positive-weight total, sort the share records by remainder descending
(stable), then hand out the remainder one unit at a time walking the sorted
array by index modulo its length. With an empty input and nonpositive total
the source would fault reading partners[0]; the model returns [] there. -/
def proportionalByWeights (qty : Int) (ps : List WeightEntry) : List Alloc :=
  let total := (ps.map (fun p => if 0 < p.weight then p.weight else 0)).sum
  if total ≤ 0 then
    match ps with
    | [] => []
    | p :: _ => [⟨p.accountId, qty⟩]
  else
    let floors := ps.map (fun p =>
      (⟨p.accountId, Int.tdiv (qty * p.weight) total, Int.tmod (qty * p.weight) total⟩ :
        FloorShare))
    let allocated := (floors.map FloorShare.floor).sum
    let remainder := qty - allocated
    let sorted := sortStable remGE floors
    let final := distribRemainder remainder.toNat 0 sorted
    final.map (fun f => ⟨f.accountId, f.floor⟩)

/-- Sum of the raw weights of a weight-entry list. -/
def weightTotal (ps : List WeightEntry) : Int := (ps.map WeightEntry.weight).sum

/-- Increment the floors of the first `r` shares of a list. -/
def bumpFirst : Nat → List FloorShare → List FloorShare
  | 0, l => l
  | _ + 1, [] => []
  | r + 1, x :: xs => bumpShare x :: bumpFirst r xs

/-- The floored shares of the specification algorithm: mathematical floor
division of `qty * w` by the weight total, with the remainder kept. -/
def specFloors (qty : Int) (ps : List WeightEntry) : List FloorShare :=
  ps.map (fun p =>
    ⟨p.accountId, (qty * p.weight) / weightTotal ps, (qty * p.weight) % weightTotal ps⟩)

/-- The number of leftover units the specification algorithm hands out. -/
def specRemainder (qty : Int) (ps : List WeightEntry) : Nat :=
  (qty - ((specFloors qty ps).map FloorShare.floor).sum).toNat

/-- The distribution algorithm exactly as the specification words it: floor
every share of the weight total, sort descending by `(T*w) mod W` keeping
input order on ties, and hand the remainder `T − Σfloors` out one unit per
share from the front of the sorted list. -/
def largestRemainderSpec (qty : Int) (ps : List WeightEntry) : List Alloc :=
  (bumpFirst (specRemainder qty ps) (sortStable remGE (specFloors qty ps))).map
    fun f => ⟨f.accountId, f.floor⟩

lemma insertStable_perm {α : Type} (le : α → α → Bool) (x : α)
    (l : List α) : (insertStable le x l).Perm (x :: l) := by
  induction l with
  | nil => simp [insertStable]
  | cons y ys ih =>
    by_cases h : le y x
    · simpa [insertStable, h] using ((ih.cons y).trans (List.Perm.swap x y ys))
    · simp [insertStable, h]

lemma sortStable_perm {α : Type} (le : α → α → Bool) (l : List α) :
    (sortStable le l).Perm l := by
  induction l with
  | nil => simp [sortStable]
  | cons x xs ih => exact (insertStable_perm le x (sortStable le xs)).trans (ih.cons x)

lemma bumpAt_nil (i : Nat) : bumpAt i [] = [] := by
  cases i <;> rfl

lemma length_bumpAt (i : Nat) (l : List FloorShare) : (bumpAt i l).length = l.length := by
  induction l generalizing i with
  | nil => rw [bumpAt_nil]
  | cons x xs ih =>
    match i with
    | 0 => rfl
    | j + 1 => simp [bumpAt, ih j]

/-- The remainder loop with the position tracked without the modulus; equal
to `distribRemainder` while the walk stays inside the list. -/
def bumpSeg (fuel k : Nat) (l : List FloorShare) : List FloorShare :=
  match fuel with
  | 0 => l
  | fuel + 1 => bumpSeg fuel (k + 1) (bumpAt k l)

lemma distribRemainder_eq_bumpSeg (fuel k : Nat) (l : List FloorShare)
    (h : k + fuel ≤ l.length) : distribRemainder fuel k l = bumpSeg fuel k l := by
  induction fuel generalizing k l with
  | zero => rfl
  | succ fuel ih =>
    have hk : k < l.length := by omega
    have hmod : k % l.length = k := Nat.mod_eq_of_lt hk
    rw [distribRemainder, bumpSeg, hmod]
    exact ih (k + 1) (bumpAt k l) (by rw [length_bumpAt]; omega)

lemma bumpSeg_cons_shift (fuel k : Nat) (y : FloorShare) (ys : List FloorShare) :
    bumpSeg fuel (k + 1) (y :: ys) = y :: bumpSeg fuel k ys := by
  induction fuel generalizing k ys with
  | zero => rfl
  | succ fuel ih => rw [bumpSeg, bumpSeg, bumpAt, ih]

lemma bumpSeg_nil (fuel k : Nat) : bumpSeg fuel k [] = [] := by
  induction fuel generalizing k with
  | zero => rfl
  | succ fuel ih => rw [bumpSeg, bumpAt_nil]; exact ih (k + 1)

lemma bumpSeg_zero_eq_bumpFirst (fuel : Nat) (l : List FloorShare) :
    bumpSeg fuel 0 l = bumpFirst fuel l := by
  induction fuel generalizing l with
  | zero => cases l <;> rfl
  | succ fuel ih =>
    cases l with
    | nil => rw [bumpSeg_nil]; rfl
    | cons x xs => rw [bumpSeg, bumpAt, bumpSeg_cons_shift, ih, bumpFirst]

lemma bumpFirst_map_floor_sum (r : Nat) (l : List FloorShare) (h : r ≤ l.length) :
    ((bumpFirst r l).map FloorShare.floor).sum = (l.map FloorShare.floor).sum + r := by
  induction l generalizing r with
  | nil =>
    have : r = 0 := by simpa using h
    subst this; rfl
  | cons x xs ih =>
    match r with
    | 0 => simp [bumpFirst]
    | r + 1 =>
      have := ih r (by simpa using h)
      simp only [bumpFirst, bumpShare, List.map, List.sum_cons, this]
      push_cast
      ring

lemma mem_bumpFirst (r : Nat) (l : List FloorShare) (x : FloorShare)
    (hx : x ∈ bumpFirst r l) : ∃ y ∈ l, x = y ∨ x = bumpShare y := by
  induction l generalizing r with
  | nil =>
    match r with
    | 0 => simp [bumpFirst] at hx
    | r + 1 => simp [bumpFirst] at hx
  | cons z zs ih =>
    match r with
    | 0 => exact ⟨x, by simpa [bumpFirst] using hx, Or.inl rfl⟩
    | r + 1 =>
      simp only [bumpFirst, List.mem_cons] at hx
      rcases hx with hx | hx
      · exact ⟨z, List.mem_cons_self z zs, Or.inr hx⟩
      · obtain ⟨y, hy, hxy⟩ := ih r hx
        exact ⟨y, List.mem_cons_of_mem z hy, hxy⟩

lemma sum_eq_mul_div_add_mod (W : Int) (l : List Int) :
    l.sum = W * (l.map (fun a => a / W)).sum + (l.map (fun a => a % W)).sum := by
  induction l with
  | nil => simp
  | cons a as ih =>
    simp only [List.sum_cons, List.map, ih, Int.mul_add]
    have := Int.ediv_add_emod a W
    ring_nf
    ring_nf at this ⊢
    omega

lemma sum_map_mul_left_list {α : Type} (T : Int) (f : α → Int) (l : List α) :
    (l.map (fun x => T * f x)).sum = T * (l.map f).sum := by
  induction l with
  | nil => simp
  | cons x xs ih => simp [ih, Int.mul_add]

lemma weightTotal_pos (ps : List WeightEntry) (hne : ps ≠ [])
    (hpos : ∀ p ∈ ps, 0 < p.weight) : 0 < weightTotal ps := by
  refine List.sum_pos _ ?_ (by simpa using hne)
  intro x hx
  obtain ⟨p, hp, rfl⟩ := List.mem_map.mp hx
  exact hpos p hp

lemma specFloors_map_floor (qty : Int) (ps : List WeightEntry) :
    (specFloors qty ps).map FloorShare.floor =
      ps.map (fun p => (qty * p.weight) / weightTotal ps) := by
  simp [specFloors, List.map_map]

lemma specFloors_map_rem (qty : Int) (ps : List WeightEntry) :
    (specFloors qty ps).map FloorShare.rem =
      ps.map (fun p => (qty * p.weight) % weightTotal ps) := by
  simp [specFloors, List.map_map]

/-- The leftover after flooring is nonnegative and strictly smaller than the
number of entries: `W * R` equals the sum of the `n` remainders, each in
`[0, W)`. -/
lemma specRemainder_bounds (qty : Int) (ps : List WeightEntry) (hT : 0 < qty)
    (hne : ps ≠ []) (hpos : ∀ p ∈ ps, 0 < p.weight) :
    0 ≤ qty - ((specFloors qty ps).map FloorShare.floor).sum ∧
    qty - ((specFloors qty ps).map FloorShare.floor).sum < ps.length := by
  have hW := weightTotal_pos ps hne hpos
  have hprod : (ps.map (fun p => qty * p.weight)).sum = qty * weightTotal ps := by
    rw [sum_map_mul_left_list qty WeightEntry.weight ps]; rfl
  have h1 := sum_eq_mul_div_add_mod (weightTotal ps) (ps.map (fun p => qty * p.weight))
  rw [List.map_map, List.map_map,
    show ps.map ((fun a => a / weightTotal ps) ∘ fun p => qty * p.weight) =
      (specFloors qty ps).map FloorShare.floor from by rw [specFloors_map_floor]; rfl,
    show ps.map ((fun a => a % weightTotal ps) ∘ fun p => qty * p.weight) =
      (specFloors qty ps).map FloorShare.rem from by rw [specFloors_map_rem]; rfl,
    hprod] at h1
  have hWS : weightTotal ps *
      (qty - ((specFloors qty ps).map FloorShare.floor).sum) =
      ((specFloors qty ps).map FloorShare.rem).sum := by
    linear_combination h1
  have hremnn : ∀ x ∈ (specFloors qty ps).map FloorShare.rem, 0 ≤ x := by
    intro x hx
    obtain ⟨f, hf, rfl⟩ := List.mem_map.mp hx
    obtain ⟨p, hp, rfl⟩ := List.mem_map.mp hf
    exact Int.emod_nonneg _ (ne_of_gt hW)
  have hremlt : ∀ x ∈ (specFloors qty ps).map FloorShare.rem, x ≤ weightTotal ps - 1 := by
    intro x hx
    obtain ⟨f, hf, rfl⟩ := List.mem_map.mp hx
    obtain ⟨p, hp, rfl⟩ := List.mem_map.mp hf
    have := Int.emod_lt_of_pos (qty * p.weight) hW
    dsimp only at this ⊢
    omega
  have hlen : ((specFloors qty ps).map FloorShare.rem).length = ps.length := by
    simp [specFloors]
  have hnn : (0:Int) ≤ weightTotal ps *
      (qty - ((specFloors qty ps).map FloorShare.floor).sum) := by
    rw [hWS]; exact List.sum_nonneg hremnn
  have hub : weightTotal ps * (qty - ((specFloors qty ps).map FloorShare.floor).sum) ≤
      (ps.length : Int) * (weightTotal ps - 1) := by
    rw [hWS]
    have := List.sum_le_card_nsmul ((specFloors qty ps).map FloorShare.rem)
      (weightTotal ps - 1) hremlt
    rw [hlen] at this
    simpa [nsmul_eq_mul] using this
  have hn : 0 < ps.length := List.length_pos.mpr hne
  constructor
  · have h0 : weightTotal ps * 0 ≤ weightTotal ps *
        (qty - ((specFloors qty ps).map FloorShare.floor).sum) := by
      simpa using hnn
    exact le_of_mul_le_mul_left h0 hW
  · have hub2 : weightTotal ps *
        (qty - ((specFloors qty ps).map FloorShare.floor).sum) <
        weightTotal ps * (ps.length : Int) := by
      have hlt : (ps.length : Int) * (weightTotal ps - 1) <
          weightTotal ps * (ps.length : Int) := by
        have hcast : (0:Int) < (ps.length : Int) := by exact_mod_cast hn
        nlinarith
      exact lt_of_le_of_lt hub hlt
    exact lt_of_mul_lt_mul_left hub2 hW.le

/-- `proportionalByWeights` computes exactly the specification distribution
on positive totals and positive weights: same floors (BigInt truncation
equals mathematical floor on nonnegative values), same stable descending
sort, and the modular remainder walk never wraps because the remainder is
smaller than the number of entries. -/
lemma proportionalByWeights_eq_spec (qty : Int) (ps : List WeightEntry) (hT : 0 < qty)
    (hne : ps ≠ []) (hpos : ∀ p ∈ ps, 0 < p.weight) :
    proportionalByWeights qty ps = largestRemainderSpec qty ps := by
  have hW := weightTotal_pos ps hne hpos
  have htot : (ps.map (fun p => if 0 < p.weight then p.weight else 0)).sum = weightTotal ps := by
    unfold weightTotal
    congr 1
    exact List.map_congr_left (fun p hp => by simp [hpos p hp])
  have hfl : ps.map (fun p =>
      (⟨p.accountId, Int.tdiv (qty * p.weight) (weightTotal ps),
        Int.tmod (qty * p.weight) (weightTotal ps)⟩ : FloorShare)) = specFloors qty ps := by
    unfold specFloors
    refine List.map_congr_left (fun p hp => ?_)
    have h1 : (0:Int) ≤ qty * p.weight := mul_nonneg hT.le (hpos p hp).le
    rw [Int.tdiv_eq_ediv h1 hW.le, Int.tmod_eq_emod h1 hW.le]
  have hbounds := specRemainder_bounds qty ps hT hne hpos
  simp only [proportionalByWeights, htot, hfl, not_le.mpr hW, if_false]
  unfold largestRemainderSpec specRemainder
  congr 1
  have hlensort : (sortStable remGE (specFloors qty ps)).length = ps.length := by
    rw [(sortStable_perm remGE (specFloors qty ps)).length_eq]
    simp [specFloors]
  rw [distribRemainder_eq_bumpSeg _ 0 _ (by omega), bumpSeg_zero_eq_bumpFirst]

/-- C8, confirmed. On a positive total and a non-empty list of positive
weights, `proportionalByWeights` (a pure function of its inputs, hence
deterministic) equals the specification algorithm — floors of T*w/W, one
remainder unit per share walking the list sorted by remainder descending
with ties kept in input order — its amounts sum exactly to T, and every
output line belongs to an input entry and carries at least that entry's
floored share and at most one unit more. -/
theorem claim_C8 (T : Int) (ps : List WeightEntry) (hT : 0 < T) (hne : ps ≠ [])
    (hpos : ∀ p ∈ ps, 0 < p.weight) :
    proportionalByWeights T ps = largestRemainderSpec T ps ∧
    ((proportionalByWeights T ps).map Alloc.amount).sum = T ∧
    ∀ a ∈ proportionalByWeights T ps, ∃ i : Fin ps.length,
      a.accountId = (ps.get i).accountId ∧
      (T * (ps.get i).weight) / weightTotal ps ≤ a.amount ∧
      a.amount ≤ (T * (ps.get i).weight) / weightTotal ps + 1 := by
  have heq := proportionalByWeights_eq_spec T ps hT hne hpos
  have hbounds := specRemainder_bounds T ps hT hne hpos
  have hlensort : (sortStable remGE (specFloors T ps)).length = ps.length := by
    rw [(sortStable_perm remGE (specFloors T ps)).length_eq]
    simp [specFloors]
  have hRle : specRemainder T ps ≤ (sortStable remGE (specFloors T ps)).length := by
    rw [hlensort]
    unfold specRemainder
    omega
  refine ⟨heq, ?_, ?_⟩
  · rw [heq]
    unfold largestRemainderSpec
    rw [List.map_map]
    have hcomp : (Alloc.amount ∘ fun f : FloorShare => (⟨f.accountId, f.floor⟩ : Alloc)) =
        FloorShare.floor := rfl
    rw [hcomp, bumpFirst_map_floor_sum _ _ hRle]
    have hperm : ((sortStable remGE (specFloors T ps)).map FloorShare.floor).Perm
        ((specFloors T ps).map FloorShare.floor) :=
      (sortStable_perm remGE (specFloors T ps)).map FloorShare.floor
    rw [hperm.sum_eq]
    unfold specRemainder
    omega
  · intro a ha
    rw [heq] at ha
    unfold largestRemainderSpec at ha
    obtain ⟨f, hf, rfl⟩ := List.mem_map.mp ha
    obtain ⟨y, hy, hfy⟩ := mem_bumpFirst _ _ f hf
    have hyfl : y ∈ specFloors T ps := ((sortStable_perm remGE _).mem_iff).mp hy
    obtain ⟨p, hp, hpy⟩ := List.mem_map.mp hyfl
    obtain ⟨i, hi⟩ := List.mem_iff_get.mp hp
    subst hpy
    subst hi
    rcases hfy with rfl | rfl
    · exact ⟨i, rfl, le_rfl, by dsimp only; omega⟩
    · exact ⟨i, rfl, by dsimp only [bumpShare]; omega, by dsimp only [bumpShare]; omega⟩

/-- C8, witness: the distribution of 21 points over equal weights 100/100. -/
theorem claim_C8_witness :
    proportionalByWeights 21 [⟨"A", 100⟩, ⟨"B", 100⟩] =
      largestRemainderSpec 21 [⟨"A", 100⟩, ⟨"B", 100⟩] ∧
    ((proportionalByWeights 21 [⟨"A", 100⟩, ⟨"B", 100⟩]).map Alloc.amount).sum = 21 ∧
    ∀ a ∈ proportionalByWeights 21 [⟨"A", 100⟩, ⟨"B", 100⟩],
      ∃ i : Fin ([⟨"A", 100⟩, ⟨"B", 100⟩] : List WeightEntry).length,
        a.accountId = (([⟨"A", 100⟩, ⟨"B", 100⟩] : List WeightEntry).get i).accountId ∧
        (21 * (([⟨"A", 100⟩, ⟨"B", 100⟩] : List WeightEntry).get i).weight) /
            weightTotal [⟨"A", 100⟩, ⟨"B", 100⟩] ≤ a.amount ∧
        a.amount ≤ (21 * (([⟨"A", 100⟩, ⟨"B", 100⟩] : List WeightEntry).get i).weight) /
            weightTotal [⟨"A", 100⟩, ⟨"B", 100⟩] + 1 :=
  claim_C8 21 [⟨"A", 100⟩, ⟨"B", 100⟩] (by decide) (by decide) (by decide)

/-- The strategy dispatch of defaultRedeemPlugin.apply (after the balance
check): source_proportional distributes by attributed amounts through
`proportionalByWeights` and fails when attribution is empty; proportional
uses `determineAllocation` over the attribution amounts as weights when
attribution is non-empty and over the configured unfrozen partners
otherwise; anything else goes to `determineAllocation` with the raw
strategy string. -/
def chooseAllocation (tenantId : String) (strategy : String) (T : Int)
    (attribution : List AttributionItem) (unfrozen : List Partner)
    (hint : Option String) : Except String (List Alloc) :=
  if strategy = "source_proportional" then
    if attribution.isEmpty then
      Except.error "No eligible merchants for redemption"
    else
      Except.ok (proportionalByWeights T (attribution.map fun a => ⟨a.accountId, a.amount⟩))
  else if strategy = "proportional" then
    if attribution.isEmpty then
      Except.ok (determineAllocation ⟨tenantId, T, unfrozen, "proportional", hint⟩)
    else
      Except.ok (determineAllocation
        ⟨tenantId, T, attribution.map (fun a => ⟨a.accountId, (a.amount : ℚ)⟩),
          "proportional", hint⟩)
  else
    Except.ok (determineAllocation ⟨tenantId, T, unfrozen, strategy, hint⟩)

/-- The attribution of the C3 scenario: both partners attributed 100. -/
def c3Attribution : List AttributionItem :=
  [⟨"A", 100, none⟩, ⟨"B", 100, none⟩]

/-- C3, counterexample. Under the proportional strategy with non-empty
attribution the plugin routes through `determineAllocation`, whose
proportional branch floors every share except the last and hands the whole
remainder to the last partner — not largest-remainder. At qty 21 with equal
attribution 100/100 the computed allocation is A ↦ 10, B ↦ 11, not the
claimed A ↦ 11, B ↦ 10. -/
theorem claim_C3_counterexample :
    chooseAllocation "t" "proportional" 21 c3Attribution [] none =
      Except.ok [⟨"A", 10⟩, ⟨"B", 11⟩] ∧
    chooseAllocation "t" "proportional" 21 c3Attribution [] none ≠
      Except.ok [⟨"A", 11⟩, ⟨"B", 10⟩] := by
  have h : chooseAllocation "t" "proportional" 21 c3Attribution [] none =
      Except.ok [⟨"A", 10⟩, ⟨"B", 11⟩] := by
    simp only [chooseAllocation, c3Attribution, determineAllocation, applyHint, propLoop,
      mathFloor, List.map, List.isEmpty, reduceIte, String.reduceEq]
    norm_num
  refine ⟨h, ?_⟩
  rw [h]
  intro hcontra
  simp only [Except.ok.injEq] at hcontra
  exact absurd (List.head_eq_of_cons_eq hcontra) (by decide)

/-- C3, amended. With qty 21, proportional strategy, and non-empty equal
attribution, the allocation floors the first share (10) and gives the last
partner the remainder (11): A is credited 10 and B 11; with qty 20 the
split is 10/10. -/
theorem claim_C3_amended :
    chooseAllocation "t" "proportional" 21 c3Attribution [] none =
      Except.ok [⟨"A", 10⟩, ⟨"B", 11⟩] ∧
    chooseAllocation "t" "proportional" 20 c3Attribution [] none =
      Except.ok [⟨"A", 10⟩, ⟨"B", 10⟩] := by
  constructor <;>
    (simp only [chooseAllocation, c3Attribution, determineAllocation, applyHint, propLoop,
      mathFloor, List.map, List.isEmpty, reduceIte, String.reduceEq]
     norm_num)

/-! ## Default earn plugin (apps/rule-runner/src/plugins/default-earn.ts) -/

/-- The fields of a receipt the earn plugin reads. -/
structure Receipt where
  merchantId : String
  buyerAccountRef : String
  grandTotal : ℚ
deriving Repr, DecidableEq

/-- JS Math.round: round half toward positive infinity. -/
def roundJs (x : ℚ) : Int := ⌊x + 1/2⌋

/-- Rounding half away from zero, the rule the specification names. -/
def roundHalfAway (x : ℚ) : Int :=
  if 0 ≤ x then ⌊x + 1/2⌋ else -⌊-x + 1/2⌋

/-- The multiplier resolution of the earn plugin: a configured numeric
points_multiplier is used when positive (and finite), anything else falls
back to 1; `none` models an absent or non-numeric configuration value. -/
def resolveMultiplier (pm : Option ℚ) : ℚ :=
  match pm with
  | some m => if 0 < m then m else 1
  | none => 1

/-- The result of a receipt plugin: ledger entries plus the points_earned
summary value. -/
structure EarnResult where
  entries : List LedgerEntry
  pointsEarnedSummary : Int
deriving Repr, DecidableEq

/-- defaultEarnPlugin.apply: round grand_total times the multiplier; on a
nonpositive result emit no entries and a zero summary, otherwise emit one
two-line entry in the points unit debiting the merchant liability account
and crediting the customer account, memo earn:merchant_id. -/
def defaultEarnApply (tenantId : String) (receipt : Receipt) (receiptId : String)
    (pm : Option ℚ) : EarnResult :=
  let multiplier := resolveMultiplier pm
  let pointsEarned := roundJs (receipt.grandTotal * multiplier)
  if pointsEarned ≤ 0 then
    ⟨[], 0⟩
  else
    ⟨[⟨"default_points", some ("earn:" ++ receipt.merchantId), some receiptId,
        [⟨merchantAccountId tenantId, pointsEarned, 0, "points"⟩,
         ⟨customerAccountId tenantId receipt.buyerAccountRef, 0, pointsEarned, "points"⟩]⟩],
      pointsEarned⟩

/-- Math.round and half-away-from-zero rounding agree wherever the earn
plugin can observe them: they coincide on every value that rounds to a
positive integer, and they are nonpositive together. -/
lemma roundJs_vs_halfAway (x : ℚ) :
    (roundJs x ≤ 0 ↔ roundHalfAway x ≤ 0) ∧ (0 < roundJs x → roundJs x = roundHalfAway x) := by
  by_cases hx : 0 ≤ x
  · simp [roundJs, roundHalfAway, hx]
  · push_neg at hx
    have h1 : roundJs x ≤ 0 := by
      have : ¬ (1:Int) ≤ ⌊x + 1/2⌋ := by
        rw [Int.le_floor]
        push_neg
        push_cast
        linarith
      unfold roundJs
      omega
    have h2 : roundHalfAway x ≤ 0 := by
      unfold roundHalfAway
      rw [if_neg (not_le.mpr hx)]
      have : (0:Int) ≤ ⌊-x + 1/2⌋ := by
        rw [Int.le_floor]
        push_cast
        linarith
      omega
    exact ⟨by omega, by omega⟩

/-- C9, confirmed. The earn plugin behaves exactly as claimed, with the
points computed by rounding half away from zero (`roundHalfAway`; JS
Math.round differs from it only on negative half-way values, where both
still yield a nonpositive points count, hence the same plugin output): with
points = roundHalfAway(grand_total × multiplier), nonpositive points give no
entries and summary 0, positive points give exactly one two-line entry in
the points unit debiting merchant liability and crediting the customer with
memo earn:merchant_id; the multiplier defaults to 1, grand_total 42.5 at
multiplier 1 gives 43 points, and at multiplier 1.5 gives 64. -/
theorem claim_C9 (tenantId receiptId : String) (receipt : Receipt) (pm : Option ℚ) :
    (defaultEarnApply tenantId receipt receiptId pm =
      if roundHalfAway (receipt.grandTotal * resolveMultiplier pm) ≤ 0 then ⟨[], 0⟩
      else
        ⟨[⟨"default_points", some ("earn:" ++ receipt.merchantId), some receiptId,
            [⟨merchantAccountId tenantId,
              roundHalfAway (receipt.grandTotal * resolveMultiplier pm), 0, "points"⟩,
             ⟨customerAccountId tenantId receipt.buyerAccountRef, 0,
              roundHalfAway (receipt.grandTotal * resolveMultiplier pm), "points"⟩]⟩],
          roundHalfAway (receipt.grandTotal * resolveMultiplier pm)⟩) ∧
    (defaultEarnApply "t" ⟨"m1", "a1", 42.5⟩ "r1" none).pointsEarnedSummary = 43 ∧
    (defaultEarnApply "t" ⟨"m1", "a1", 42.5⟩ "r1" (some (3/2))).pointsEarnedSummary = 64 := by
  refine ⟨?_, ?_, ?_⟩
  · obtain ⟨hiff, hpos⟩ := roundJs_vs_halfAway (receipt.grandTotal * resolveMultiplier pm)
    unfold defaultEarnApply
    by_cases h : roundJs (receipt.grandTotal * resolveMultiplier pm) ≤ 0
    · rw [if_pos h, if_pos (hiff.mp h)]
    · have heq := hpos (by omega)
      rw [if_neg h, if_neg (fun hc => h (heq ▸ hc)), heq]
  · have h1 : roundJs ((85/2 : ℚ) * resolveMultiplier none) = 43 := by
      unfold roundJs resolveMultiplier
      norm_num
    simp only [defaultEarnApply]
    norm_num [h1]
  · have h1 : roundJs ((85/2 : ℚ) * resolveMultiplier (some (3/2))) = 64 := by
      unfold roundJs resolveMultiplier
      norm_num
    simp only [defaultEarnApply]
    norm_num [h1]

/-! ## Point lots and FIFO consumption (consumeLots in the processor) -/

/-- Milliseconds in one day, the unit of the lookback windows. -/
def dayMs : Int := 86400000

/-- A row of the point_lots table. -/
structure Lot where
  lotId : String
  tenantId : String
  programId : String
  unit : String
  customerAccount : String
  merchantId : Option String
  qtyTotal : Int
  qtyRemaining : Int
  expiresAt : Option Int
  createdAt : Int
deriving Repr, DecidableEq

/-- The scope arguments of `consumeLots`. -/
structure ConsumeArgs where
  customerAccount : String
  programId : String
  unit : String
  amount : Int
deriving Repr, DecidableEq

/-- The option bag of `consumeLots`: a global expiry window in days and a
rule-specific override; the override distinguishes absent from null. -/
structure ConsumeOptions where
  globalExpiryDays : Option Int
  expiryOverrideDays : Option (Option Int)
deriving Repr, DecidableEq

/-- The merchant scope of the consumeLots SELECT: the clause
`pl.merchant_id = ANY(ids)` is added only for a non-empty id list, and a
NULL merchant_id never matches it. -/
def merchantScopeOk (merchantIds : Option (List String)) (l : Lot) : Bool :=
  match merchantIds with
  | some (m :: ms) =>
    match l.merchantId with
    | some mid => (m :: ms).contains mid
    | none => false
  | _ => true

/-- `expires_at IS NULL OR expires_at > NOW()`. -/
def notExpired (now : Int) (l : Lot) : Bool :=
  match l.expiresAt with
  | none => true
  | some t => decide (now < t)

/-- The lookback clause built by `buildLookbackClause` for a day count that
passed the caller's guard: `created_at >= now - days * 1 day`. The guard in
consumeLots adds the clause only for a present nonnegative day count. -/
def lookbackOk (now : Int) (days : Option Int) (l : Lot) : Bool :=
  match days with
  | some d => if 0 ≤ d then decide (now - d * dayMs ≤ l.createdAt) else true
  | none => true

/-- The override lookback clause: added only when the override is present,
non-null and nonnegative. -/
def overrideLookbackOk (now : Int) (days : Option (Option Int)) (l : Lot) : Bool :=
  match days with
  | some (some d) => if 0 ≤ d then decide (now - d * dayMs ≤ l.createdAt) else true
  | _ => true

/-- The tenant/account/program/unit scope of the consumeLots SELECT. -/
def lotScopeMatches (tenantId : String) (args : ConsumeArgs) (l : Lot) : Bool :=
  decide (l.tenantId = tenantId) && decide (l.customerAccount = args.customerAccount) &&
    decide (l.programId = args.programId) && decide (l.unit = args.unit)

/-- The full WHERE clause of the consumeLots SELECT. -/
def lotEligible (now : Int) (tenantId : String) (args : ConsumeArgs)
    (merchantIds : Option (List String)) (options : ConsumeOptions) (l : Lot) : Bool :=
  lotScopeMatches tenantId args l && merchantScopeOk merchantIds l &&
    decide (0 < l.qtyRemaining) && notExpired now l &&
    lookbackOk now options.globalExpiryDays l &&
    overrideLookbackOk now options.expiryOverrideDays l

/-- Rank of the expires_at column under NULLS LAST: null sorts after every
timestamp. -/
def expRank (l : Lot) : Int :=
  match l.expiresAt with
  | some _ => 0
  | none => 1

/-- The expires_at timestamp, 0 for null (only compared at equal rank). -/
def expVal (l : Lot) : Int :=
  match l.expiresAt with
  | some t => t
  | none => 0

/-- Strict lexicographic order on `(expires_at NULLS LAST, created_at)`:
lot `a` sorts strictly before lot `b`. -/
def lotLt (a b : Lot) : Prop :=
  expRank a < expRank b ∨
    (expRank a = expRank b ∧
      (expVal a < expVal b ∨ (expVal a = expVal b ∧ a.createdAt < b.createdAt)))

instance (a b : Lot) : Decidable (lotLt a b) := by
  unfold lotLt; infer_instance

/-- The total preorder the ORDER BY induces, as a boolean kept-before
relation for the stable sort. -/
def lotLeB (a b : Lot) : Bool :=
  decide (expRank a < expRank b) ||
    (decide (expRank a = expRank b) &&
      (decide (expVal a < expVal b) ||
        (decide (expVal a = expVal b) && decide (a.createdAt ≤ b.createdAt))))

lemma lotLeB_refl (a : Lot) : lotLeB a a = true := by
  simp [lotLeB]

lemma lotLeB_total (a b : Lot) : lotLeB a b = true ∨ lotLeB b a = true := by
  simp only [lotLeB, Bool.or_eq_true, Bool.and_eq_true, decide_eq_true_eq]
  omega

lemma lotLeB_trans (a b c : Lot) (h1 : lotLeB a b = true) (h2 : lotLeB b c = true) :
    lotLeB a c = true := by
  simp only [lotLeB, Bool.or_eq_true, Bool.and_eq_true, decide_eq_true_eq] at h1 h2 ⊢
  omega

lemma lotLt_not_leB (a b : Lot) (h : lotLt a b) : lotLeB b a = false := by
  unfold lotLt at h
  simp only [lotLeB, Bool.or_eq_false_iff, Bool.and_eq_false_iff, decide_eq_false_iff_not,
    not_lt, Bool.or_eq_false_iff] at h ⊢
  omega

lemma pairwise_insertStable {α : Type} (le : α → α → Bool)
    (htrans : ∀ a b c, le a b = true → le b c = true → le a c = true)
    (htot : ∀ a b, le a b = true ∨ le b a = true)
    (x : α) (l : List α) (h : l.Pairwise (fun a b => le a b = true)) :
    (insertStable le x l).Pairwise (fun a b => le a b = true) := by
  induction l with
  | nil => simp [insertStable]
  | cons y ys ih =>
    rw [List.pairwise_cons] at h
    obtain ⟨hy, hys⟩ := h
    by_cases hle : le y x = true
    · rw [insertStable, if_pos hle, List.pairwise_cons]
      refine ⟨?_, ih hys⟩
      intro z hz
      have hz2 := (insertStable_perm le x ys).mem_iff.mp hz
      rcases List.mem_cons.mp hz2 with rfl | hz3
      · exact hle
      · exact hy z hz3
    · rw [insertStable, if_neg hle, List.pairwise_cons]
      have hxy : le x y = true := by
        rcases htot x y with h | h
        · exact h
        · exact absurd h hle
      refine ⟨?_, List.pairwise_cons.mpr ⟨hy, hys⟩⟩
      intro z hz
      rcases List.mem_cons.mp hz with rfl | hz2
      · exact hxy
      · exact htrans x y z hxy (hy z hz2)

lemma pairwise_sortStable {α : Type} (le : α → α → Bool)
    (htrans : ∀ a b c, le a b = true → le b c = true → le a c = true)
    (htot : ∀ a b, le a b = true ∨ le b a = true) (l : List α) :
    (sortStable le l).Pairwise (fun a b => le a b = true) := by
  induction l with
  | nil => simp [sortStable]
  | cons x xs ih => exact pairwise_insertStable le htrans htot x (sortStable le xs) ih

/-- In a list sorted under a total preorder, an element strictly below
another (the other never sorts before it, and they differ) appears strictly
earlier: the list splits around the two. -/
lemma sorted_split {α : Type} (le : α → α → Bool) (l : List α)
    (hrefl : ∀ a, le a a = true)
    (hp : l.Pairwise (fun a b => le a b = true))
    (A B : α) (hA : A ∈ l) (hB : B ∈ l) (hBA : le B A = false) :
    ∃ l1 l2 l3, l = l1 ++ A :: l2 ++ B :: l3 := by
  induction l with
  | nil => simp at hA
  | cons x xs ih =>
    rw [List.pairwise_cons] at hp
    obtain ⟨hxall, hxs⟩ := hp
    rcases List.mem_cons.mp hA with rfl | hA2
    · have hBxs : B ∈ xs := by
        rcases List.mem_cons.mp hB with rfl | hB2
        · exact absurd (hrefl B) (by simp [hBA])
        · exact hB2
      obtain ⟨l2, l3, hsplit⟩ := List.append_of_mem hBxs
      exact ⟨[], l2, l3, by simp [hsplit]⟩
    · rcases List.mem_cons.mp hB with rfl | hB2
      · exact absurd (hxall A hA2) (by simp [hBA])
      · obtain ⟨l1, l2, l3, hsplit⟩ := ih hxs hA2 hB2
        exact ⟨x :: l1, l2, l3, by rw [hsplit]; rfl⟩

/-- The rows the consumeLots SELECT returns: the eligible lots in ascending
`(expires_at NULLS LAST, created_at)` order. -/
def eligibleRows (now : Int) (tenantId : String) (args : ConsumeArgs)
    (merchantIds : Option (List String)) (options : ConsumeOptions) (lots : List Lot) :
    List Lot :=
  sortStable lotLeB (lots.filter (lotEligible now tenantId args merchantIds options))

/-- The row loop of `consumeLots`: stop once nothing remains, skip rows with
no quantity left, otherwise consume `min(qty_remaining, remaining)` and issue
the decrementing UPDATE. Returns the UPDATE trace (lot id, amount) in issue
order, together with the remaining amount after the loop. -/
def consumeLoop (remaining : Int) : List Lot → List (String × Int) × Int
  | [] => ([], remaining)
  | l :: ls =>
    if remaining ≤ 0 then ([], remaining)
    else if l.qtyRemaining ≤ 0 then consumeLoop remaining ls
    else
      let c := if remaining ≤ l.qtyRemaining then remaining else l.qtyRemaining
      let res := consumeLoop (remaining - c) ls
      ((l.lotId, c) :: res.1, res.2)

/-- The UPDATE trace of one `consumeLots` call. -/
def consumeTrace (now : Int) (tenantId : String) (args : ConsumeArgs)
    (merchantIds : Option (List String)) (options : ConsumeOptions) (lots : List Lot) :
    List (String × Int) :=
  (consumeLoop args.amount (eligibleRows now tenantId args merchantIds options lots)).1

/-- Replays the decrementing UPDATEs of a trace on the lot table; each
UPDATE is guarded by `qty_remaining >= amount` as in the source. -/
def applyConsumption (lots : List Lot) (trace : List (String × Int)) : List Lot :=
  trace.foldl
    (fun acc t =>
      acc.map (fun l =>
        if l.lotId = t.1 ∧ t.2 ≤ l.qtyRemaining then
          { l with qtyRemaining := l.qtyRemaining - t.2 }
        else l))
    lots

/-- `consumeLots` from the rule-runner processor: nothing happens on a
nonpositive amount; otherwise the eligible rows are walked in FIFO order and
decremented, and if anything remains uncovered afterwards the function
throws (the UPDATEs already issued stay on the transaction). -/
def consumeLots (now : Int) (tenantId : String) (args : ConsumeArgs)
    (merchantIds : Option (List String)) (options : ConsumeOptions) (lots : List Lot) :
    List Lot × Except String Unit :=
  if args.amount ≤ 0 then (lots, Except.ok ())
  else
    let res := consumeLoop args.amount (eligibleRows now tenantId args merchantIds options lots)
    let lots2 := applyConsumption lots res.1
    if 0 < res.2 then
      (lots2, Except.error "Insufficient eligible points in lots to cover redemption")
    else
      (lots2, Except.ok ())

lemma consumeLoop_nonpos (r : Int) (hr : r ≤ 0) (l : List Lot) :
    consumeLoop r l = ([], r) := by
  cases l with
  | nil => rfl
  | cons x xs => rw [consumeLoop, if_pos hr]

/-- FIFO structure of the consume loop: when a later lot `B` receives a
decrement, every earlier positive lot `A` was first consumed in full, by a
single trace entry for its whole remaining quantity that precedes every
entry of `B`. -/
lemma consumeLoop_fifo (A B : Lot) (hq : 0 < A.qtyRemaining)
    (l1 l2 l3 : List Lot) (r : Int)
    (hnd : ((l1 ++ A :: (l2 ++ B :: l3)).map Lot.lotId).Nodup)
    (c : Int) (hc : (B.lotId, c) ∈ (consumeLoop r (l1 ++ A :: (l2 ++ B :: l3))).1) :
    ∃ t1 t2,
      (consumeLoop r (l1 ++ A :: (l2 ++ B :: l3))).1 = t1 ++ (A.lotId, A.qtyRemaining) :: t2 ∧
      (∀ d, (B.lotId, d) ∉ t1) ∧ ∃ d, (B.lotId, d) ∈ t2 := by
  induction l1 generalizing r with
  | nil =>
    rw [List.nil_append] at hnd hc ⊢
    have hAB : A.lotId ≠ B.lotId := by
      simp only [List.map_cons, List.nodup_cons] at hnd
      intro hco
      exact hnd.1 (by rw [hco]; simp)
    by_cases hr : r ≤ 0
    · rw [consumeLoop_nonpos r hr] at hc
      simp at hc
    · simp only [consumeLoop, if_neg hr, if_neg (show ¬ A.qtyRemaining ≤ 0 by omega)]
        at hc ⊢
      by_cases hge : r ≤ A.qtyRemaining
      · exfalso
        rw [if_pos hge] at hc
        rw [consumeLoop_nonpos (r - r) (by omega)] at hc
        simp at hc
        exact hAB hc.1.symm
      · rw [if_neg hge] at hc ⊢
        simp only [List.mem_cons, Prod.mk.injEq] at hc
        rcases hc with ⟨hco, -⟩ | hc2
        · exact absurd hco.symm hAB
        · exact ⟨[], (consumeLoop (r - A.qtyRemaining) (l2 ++ B :: l3)).1, rfl,
            by simp, c, hc2⟩
  | cons x xs ih =>
    have hxB : x.lotId ≠ B.lotId := by
      simp only [List.cons_append, List.map_cons, List.nodup_cons] at hnd
      intro hco
      exact hnd.1 (by rw [hco]; simp)
    have hnd2 : ((xs ++ A :: (l2 ++ B :: l3)).map Lot.lotId).Nodup := by
      simp only [List.cons_append, List.map_cons, List.nodup_cons] at hnd
      exact hnd.2
    rw [List.cons_append] at hc ⊢
    by_cases hr : r ≤ 0
    · rw [consumeLoop_nonpos r hr] at hc
      simp at hc
    · by_cases hxq : x.qtyRemaining ≤ 0
      · simp only [consumeLoop, if_neg hr, if_pos hxq] at hc ⊢
        exact ih r hnd2 hc
      · simp only [consumeLoop, if_neg hr, if_neg hxq] at hc ⊢
        by_cases hge : r ≤ x.qtyRemaining
        · exfalso
          rw [if_pos hge] at hc
          rw [consumeLoop_nonpos (r - r) (by omega)] at hc
          simp at hc
          exact hxB hc.1.symm
        · rw [if_neg hge] at hc ⊢
          simp only [List.mem_cons, Prod.mk.injEq] at hc
          rcases hc with ⟨hco, -⟩ | hc2
          · exact absurd hco.symm hxB
          · obtain ⟨t1, t2, heq, hno, hex⟩ := ih (r - x.qtyRemaining) hnd2 hc2
            refine ⟨(x.lotId, x.qtyRemaining) :: t1, t2, by simp [heq], ?_, hex⟩
            intro d hd
            rcases List.mem_cons.mp hd with hd1 | hd2
            · exact hxB (by injection hd1 with h1 h2; exact h1.symm)
            · exact hno d hd2

/-- C6, confirmed. In every lot-consumption trace, lots are walked in
ascending `(expires_at NULLS LAST, created_at)` order and each is decremented
by `min(qty_remaining, amount_left)`: whenever an eligible lot `B` under the
same scope is decremented, any eligible lot `A` that orders strictly before
it was already consumed down to zero — its single trace entry burns its
whole `qty_remaining` and precedes every trace entry of `B`. -/
theorem claim_C6 (now : Int) (tenantId : String) (args : ConsumeArgs)
    (merchantIds : Option (List String)) (options : ConsumeOptions) (lots : List Lot)
    (A B : Lot)
    (hA : A ∈ eligibleRows now tenantId args merchantIds options lots)
    (hB : B ∈ eligibleRows now tenantId args merchantIds options lots)
    (hlt : lotLt A B)
    (hnd : ((eligibleRows now tenantId args merchantIds options lots).map Lot.lotId).Nodup)
    (c : Int) (hc : (B.lotId, c) ∈ consumeTrace now tenantId args merchantIds options lots) :
    ∃ t1 t2,
      consumeTrace now tenantId args merchantIds options lots =
        t1 ++ (A.lotId, A.qtyRemaining) :: t2 ∧
      (∀ d, (B.lotId, d) ∉ t1) ∧ ∃ d, (B.lotId, d) ∈ t2 := by
  have hq : 0 < A.qtyRemaining := by
    have hmemf : A ∈ lots.filter (lotEligible now tenantId args merchantIds options) :=
      (sortStable_perm lotLeB _).mem_iff.mp hA
    have := (List.mem_filter.mp hmemf).2
    simp only [lotEligible, Bool.and_eq_true, decide_eq_true_eq] at this
    tauto
  have hp := pairwise_sortStable lotLeB lotLeB_trans
    (fun a b => lotLeB_total a b)
    (lots.filter (lotEligible now tenantId args merchantIds options))
  obtain ⟨l1, l2, l3, hsplit⟩ := sorted_split lotLeB _ lotLeB_refl hp A B hA hB
    (lotLt_not_leB A B hlt)
  have hsplit2 : sortStable lotLeB
      (lots.filter (lotEligible now tenantId args merchantIds options)) =
      l1 ++ A :: (l2 ++ B :: l3) := by
    rw [hsplit]
    simp
  unfold consumeTrace at hc ⊢
  unfold eligibleRows at hc hnd ⊢
  rw [hsplit2] at hc hnd ⊢
  exact consumeLoop_fifo A B hq l1 l2 l3 args.amount hnd c hc

/-- A lot with the earlier (non-null) expiry, one point remaining. -/
def lotA : Lot := ⟨"lotA", "t", "default_points", "points", "cust", none, 1, 1, some 100, 0⟩

/-- A never-expiring lot (sorts after `lotA` under NULLS LAST). -/
def lotB : Lot := ⟨"lotB", "t", "default_points", "points", "cust", none, 5, 5, none, 0⟩

/-- The consumption scope of the C6 witness. -/
def c6Args : ConsumeArgs := ⟨"cust", "default_points", "points", 3⟩

/-- C6, witness: consuming 3 points across `lotB, lotA` burns `lotA` fully
first. -/
theorem claim_C6_witness :
    ∃ t1 t2,
      consumeTrace 0 "t" c6Args none ⟨none, none⟩ [lotB, lotA] =
        t1 ++ (lotA.lotId, lotA.qtyRemaining) :: t2 ∧
      (∀ d, (lotB.lotId, d) ∉ t1) ∧ ∃ d, (lotB.lotId, d) ∈ t2 :=
  claim_C6 0 "t" c6Args none ⟨none, none⟩ [lotB, lotA] lotA lotB
    (by decide) (by decide) (by decide) (by decide) 2 (by decide)

/-! ## Notification dispatcher (apps/notifier/src/processor.ts) -/

/-- Truncation applied to stored error messages. -/
def truncateError (s : String) : String :=
  if s.length ≤ 1024 then s else s.take 1024

/-- A row of the job_notifications table as the notifier reads it, with the
outbox bookkeeping columns. -/
structure NotificationRow where
  notificationId : String
  tenantId : String
  jobType : String
  jobId : String
  referenceId : String
  status : String
  summary : Option String
  error : Option String
  availableAt : Int
  deliveredAt : Option Int
  deliveryAttempts : Int
  createdAt : Int
deriving Repr, DecidableEq

/-- The notifier configuration the dispatcher consults. -/
structure NotifierConfig where
  webhookUrl : Option String
  webhookSecret : Option String
  pollIntervalMs : Int
deriving Repr, DecidableEq

/-- One HTTP POST issued by `deliverNotification`. -/
structure HttpRequest where
  url : String
  tenantId : String
  jobType : String
  jobId : String
  signed : Bool
deriving Repr, DecidableEq

/-- `deliverNotification`: with no webhook URL configured it logs and
returns without issuing any request; otherwise it POSTs once and throws on a
non-2xx response (`httpOk` stands for the response status). -/
def deliverNotification (cfg : NotifierConfig) (httpOk : Bool) (n : NotificationRow) :
    List HttpRequest × Except String Unit :=
  match cfg.webhookUrl with
  | none => ([], Except.ok ())
  | some url =>
    ([⟨url, n.tenantId, n.jobType, n.jobId, cfg.webhookSecret.isSome⟩],
      if httpOk then Except.ok () else Except.error "Webhook delivery failed")

/-- The WHERE clause of the notifier SELECT:
`delivered_at IS NULL AND available_at <= NOW()`. -/
def notifDue (now : Int) (n : NotificationRow) : Bool :=
  n.deliveredAt.isNone && decide (n.availableAt ≤ now)

/-- The oldest due notification (`ORDER BY created_at LIMIT 1`; ties keep
the earlier row). -/
def selectOldestNotification (now : Int) (rows : List NotificationRow) :
    Option NotificationRow :=
  (rows.filter (notifDue now)).foldl
    (fun acc n =>
      match acc with
      | none => some n
      | some m => if n.createdAt < m.createdAt then some n else some m)
    none

/-- SQL UPDATE keyed on notification_id. -/
def updateNotification (rows : List NotificationRow) (nid : String)
    (f : NotificationRow → NotificationRow) : List NotificationRow :=
  rows.map (fun n => if n.notificationId = nid then f n else n)

/-- `processNextNotification`: pick the oldest due row, try delivery, then
either mark it delivered (set delivered_at, increment delivery_attempts) or
reschedule it (`available_at = now + 5 × poll interval`, increment
delivery_attempts, store the truncated error). Returns the new table, the
requests issued, and whether a row was picked. -/
def processNextNotification (cfg : NotifierConfig) (httpOk : Bool) (now : Int)
    (rows : List NotificationRow) : List NotificationRow × List HttpRequest × Bool :=
  match selectOldestNotification now rows with
  | none => (rows, [], false)
  | some n =>
    let d := deliverNotification cfg httpOk n
    match d.2 with
    | Except.ok _ =>
      (updateNotification rows n.notificationId
          (fun m => { m with deliveredAt := some now,
                             deliveryAttempts := m.deliveryAttempts + 1 }),
        d.1, true)
    | Except.error msg =>
      (updateNotification rows n.notificationId
          (fun m => { m with availableAt := now + cfg.pollIntervalMs * 5,
                             deliveryAttempts := m.deliveryAttempts + 1,
                             error := some (truncateError msg) }),
        d.1, true)

/-- C10, confirmed. With no webhook URL configured, a due notification is
treated as delivered without any HTTP request: the dispatcher issues no
request, sets its delivered_at to now and increments delivery_attempts —
and a delivered row is never due again, so the notification is permanently
consumed. -/
theorem claim_C10 (cfg : NotifierConfig) (httpOk : Bool) (now : Int)
    (rows : List NotificationRow) (n : NotificationRow)
    (hurl : cfg.webhookUrl = none)
    (hsel : selectOldestNotification now rows = some n) :
    processNextNotification cfg httpOk now rows =
      (updateNotification rows n.notificationId
          (fun m => { m with deliveredAt := some now,
                             deliveryAttempts := m.deliveryAttempts + 1 }),
        [], true) ∧
    ∀ (m : NotificationRow) (later : Int), m.deliveredAt = some now →
      notifDue later m = false := by
  constructor
  · unfold processNextNotification
    rw [hsel]
    unfold deliverNotification
    rw [hurl]
  · intro m later hm
    unfold notifDue
    rw [hm]
    rfl

/-- A concrete due notification row. -/
def sampleNotification : NotificationRow :=
  ⟨"n1", "t", "receipt", "j1", "r1", "completed", none, none, 0, none, 0, 0⟩

/-- C10, witness: one due row under a configuration without webhook URL. -/
theorem claim_C10_witness :
    processNextNotification ⟨none, none, 1000⟩ true 5 [sampleNotification] =
      (updateNotification [sampleNotification] sampleNotification.notificationId
          (fun m => { m with deliveredAt := some 5,
                             deliveryAttempts := m.deliveryAttempts + 1 }),
        [], true) ∧
    ∀ (m : NotificationRow) (later : Int), m.deliveredAt = some 5 →
      notifDue later m = false :=
  claim_C10 ⟨none, none, 1000⟩ true 5 [sampleNotification] sampleNotification rfl (by decide)

/-! ## Job processor data model (apps/rule-runner/src/processor.ts)

The rule-runner database layer (its db.ts with `withTransaction`) is not in
the repository snapshot; only its callers are. `withTransaction` is
modelled from the spec — BEGIN, run the body, COMMIT on normal return,
ROLLBACK when the body throws — matching the api and notifier
implementations that are in the snapshot. Since every processor body
catches its own errors and returns normally, the processor step always
commits the state its body produced. -/

/-- Job status column. -/
inductive JobStatus where
  | pending
  | processing
  | completed
  | failed
deriving Repr, DecidableEq

/-- One item of the redeem summary's allocation array. -/
structure SummaryAllocItem where
  merchant_account : String
  amount : Int
  settlement_adjustment_bps : Option Int
deriving Repr, DecidableEq

/-- A plugin mutation summary: the fields the processor reads
(points_redeemed, allocation, burn_merchant_id) plus the other keys
(such as points_earned) kept opaquely. -/
structure MutSummary where
  points_redeemed : Option Int
  allocation : Option (List SummaryAllocItem)
  burn_merchant_id : Option String
  extra : List (String × Int)
deriving Repr, DecidableEq

/-- A ledger mutation: entries plus optional summary. -/
structure Mutation where
  entries : List LedgerEntry
  summary : Option MutSummary
deriving Repr, DecidableEq

/-- The result_summary column: a redeem plugin summary, the
completeJobWithFailure marker object, or merged receipt summaries. -/
inductive JobSummary where
  | fromMutation (s : MutSummary)
  | failure (reason : String)
  | receiptMerged (ms : List MutSummary)
deriving Repr, DecidableEq

/-- A row of either job table. referenceId is receipt_id or request_id. -/
structure JobRow where
  jobId : String
  tenantId : String
  referenceId : String
  status : JobStatus
  attempts : Int
  lastError : Option String
  resultSummary : Option JobSummary
  availableAt : Int
  completedAt : Option Int
  createdAt : Int
deriving Repr, DecidableEq

/-- A row of redeem_requests. -/
structure RedeemRequestRow where
  requestId : String
  accountId : String
  programId : String
  unit : String
  qty : Int
  memo : Option String
  idempotencyKey : Option String
  burnMerchantId : Option String
deriving Repr, DecidableEq

/-- A row of receipts (only the payload matters to the processor). -/
structure ReceiptRow where
  receiptId : String
  payload : Receipt
deriving Repr, DecidableEq

/-- A partner in cross_brand_allocation.partners. expiry_days distinguishes
an absent field from an explicit null. -/
structure PartnerCfg where
  merchant_account : String
  weight : Option ℚ
  expiry_days : Option (Option Int)
deriving Repr, DecidableEq

/-- One entry of cross_brand_allocation.partner_map. -/
structure PartnerMapEntry where
  merchant_id : String
  merchant_account : String
deriving Repr, DecidableEq

/-- The cross_brand_allocation block of a program config. -/
structure CrossBrandCfg where
  strategy : Option String
  partners : List PartnerCfg
  partner_map : List PartnerMapEntry
  expiry_days : Option Int
deriving Repr, DecidableEq

/-- One entry of earn_expiry_overrides. -/
structure ExpiryOverride where
  merchant_id : String
  expiry_days : Option Int
deriving Repr, DecidableEq

/-- The program config fields the processor and plugins read. -/
structure ProgramCfg where
  cross_brand_allocation : Option CrossBrandCfg
  points_multiplier : Option ℚ
  earn_expiry_overrides : List ExpiryOverride
  earn_expiry_days_default : Option Int
deriving Repr, DecidableEq

/-- A row of program_configs. -/
structure ProgramConfigRow where
  tenantId : String
  programId : String
  config : ProgramCfg
deriving Repr, DecidableEq

/-- A row of merchant_redemption_rules. -/
structure MerchantRuleRow where
  tenantId : String
  earnMerchantId : String
  earnMerchantAccount : String
  burnMerchantId : String
  expiryDaysOverride : Option Int
  settlementAdjustmentBps : Option Int
  enabled : Bool
deriving Repr, DecidableEq

/-- A row of merchant_status. -/
structure MerchantStatusRow where
  tenantId : String
  merchantAccount : String
  frozen : Bool
deriving Repr, DecidableEq

/-- A row inserted into job_notifications by the processor. -/
structure NotifOutRow where
  notificationId : String
  tenantId : String
  jobType : String
  jobId : String
  referenceId : String
  status : String
  summary : Option JobSummary
  error : Option String
deriving Repr, DecidableEq

/-- The relational state the processor acts on, plus the id-generation
counter: `generateId` is modelled as an injective supply indexed by
`nextId`. -/
structure DB where
  nextId : Nat
  receipts : List ReceiptRow
  journal : List JournalRow
  ledgerLines : List LineRow
  lots : List Lot
  receiptJobs : List JobRow
  redeemJobs : List JobRow
  redeemRequests : List RedeemRequestRow
  programConfigs : List ProgramConfigRow
  merchantRules : List MerchantRuleRow
  merchantStatus : List MerchantStatusRow
  notifications : List NotifOutRow
deriving Repr, DecidableEq

/-- `getProgramConfig`: the config column of the (tenant, program) row. -/
def getProgramConfigDb (db : DB) (tenantId programId : String) : Option ProgramCfg :=
  (db.programConfigs.find? (fun r =>
    decide (r.tenantId = tenantId) && decide (r.programId = programId))).map (·.config)

/-- `loadRedemptionRules`: every enabled rule of the burn merchant, empty
with no burn merchant. -/
def rulesFor (db : DB) (tenantId : String) (burnMerchantId : Option String) :
    List MerchantRuleRow :=
  match burnMerchantId with
  | none => []
  | some b => db.merchantRules.filter (fun r =>
      decide (r.tenantId = tenantId) && decide (r.burnMerchantId = b) && r.enabled)

/-- The byAccount index of a rule set: Map.set keeps the last rule per
earn_merchant_account. -/
def ruleByAccount (rules : List MerchantRuleRow) (acct : String) : Option MerchantRuleRow :=
  (rules.filter (fun r => decide (r.earnMerchantAccount = acct))).getLast?

/-- Whether a merchant account is frozen for the tenant. -/
def isFrozen (db : DB) (tenantId acct : String) : Bool :=
  (db.merchantStatus.find? (fun r =>
    decide (r.tenantId = tenantId) && decide (r.merchantAccount = acct) && r.frozen)).isSome

/-- Record lookup on a partner map built with Object.fromEntries: a later
entry for the same merchant id wins. -/
def partnerMapLookup (pm : List PartnerMapEntry) (merchantId : String) : Option String :=
  ((pm.filter (fun e => decide (e.merchant_id = merchantId))).getLast?).map
    (·.merchant_account)

/-- The lookback clause variant whose guard requires a strictly positive
day count (used by `sumEligibleLotBalance` for the global bound and by the
fallback attribution). -/
def lookbackPosOk (now : Int) (days : Option Int) (l : Lot) : Bool :=
  match days with
  | some d => if 0 < d then decide (now - d * dayMs ≤ l.createdAt) else true
  | none => true

/-- `sumEligibleLotBalance`: the summed qty_remaining of the non-expired
positive lots of one merchant under the two expiry bounds. -/
def sumEligibleLotBalance (db : DB) (now : Int)
    (tenantId customerAccount programId unit merchantId : String)
    (expiryDaysGlobal : Option Int) (expiryOverrideDays : Option (Option Int)) : Int :=
  ((db.lots.filter (fun l =>
    decide (l.tenantId = tenantId) && decide (l.customerAccount = customerAccount) &&
      decide (l.programId = programId) && decide (l.unit = unit) &&
      decide (l.merchantId = some merchantId) &&
      decide (0 < l.qtyRemaining) && notExpired now l &&
      lookbackPosOk now expiryDaysGlobal l &&
      overrideLookbackOk now expiryOverrideDays l)).map Lot.qtyRemaining).sum

/-- Order-preserving accumulation into an association list (models both the
SQL GROUP BY, taken in first-occurrence order, and a JS Map keyed by
insertion order). -/
def groupAdd (l : List (String × Int)) (k : String) (v : Int) : List (String × Int) :=
  match l with
  | [] => [(k, v)]
  | (k2, v2) :: rest => if k = k2 then (k2, v2 + v) :: rest else (k2, v2) :: groupAdd rest k v

/-- `fallbackOutstandingAttribution`: group remaining quantity by earn
merchant over non-expired lots, map each merchant to a partner account via
the partner map (an empty-string mapping counts as missing, as JS falsiness
does) or to the sole candidate account, and keep only accounts in the
candidate set. -/
def fallbackOutstandingAttribution (db : DB) (now : Int)
    (tenantId customerAccount : String) (partnerAccounts : List String)
    (partnerMap : List PartnerMapEntry) (expiryDays : Option Int) : List AttributionItem :=
  let lotRows := db.lots.filter (fun l =>
    decide (l.tenantId = tenantId) && decide (l.customerAccount = customerAccount) &&
      decide (l.programId = "default_points") && decide (l.unit = "points") &&
      decide (0 < l.qtyRemaining) && notExpired now l && lookbackPosOk now expiryDays l)
  let groups := lotRows.foldl (fun acc l => groupAdd acc (l.merchantId.getD "") l.qtyRemaining) []
  let results := groups.foldl (fun acc g =>
    let fallbackChoice : Option String :=
      if partnerAccounts.length = 1 then partnerAccounts.head? else none
    let accountId : Option String :=
      match partnerMapLookup partnerMap g.1 with
      | some a => if a = "" then fallbackChoice else some a
      | none => fallbackChoice
    match accountId with
    | some a => if partnerAccounts.contains a then groupAdd acc a g.2 else acc
    | none => acc) []
  results.map (fun r => ⟨r.1, r.2, none⟩)

/-- The option bag of getOutstandingAttribution; an empty partner map is
the same as an absent one. -/
structure AttributionOptions where
  partnerAccounts : List String
  partnerMap : List PartnerMapEntry
  expiryDays : Option Int
  burnMerchantId : Option String
deriving Repr, DecidableEq

/-- `getOutstandingAttribution` from createRedeemHelpers: drop frozen
candidates; with rules for the burn merchant, sum eligible lots per rule
whose account is a candidate (attaching the settlement adjustment); with no
rules, return empty when a burn merchant was named, else fall back to
grouping lots by merchant. -/
def getOutstandingAttribution (db : DB) (now : Int) (tenantId customerAccount : String)
    (options : AttributionOptions) : List AttributionItem :=
  let candidates := options.partnerAccounts.filter (fun a => ! isFrozen db tenantId a)
  if candidates.isEmpty then []
  else
    let ruleSet := rulesFor db tenantId options.burnMerchantId
    if ruleSet.isEmpty then
      if options.burnMerchantId.isSome then []
      else
        fallbackOutstandingAttribution db now tenantId customerAccount candidates
          options.partnerMap options.expiryDays
    else
      ruleSet.foldl (fun acc rule =>
        if candidates.contains rule.earnMerchantAccount then
          let amount := sumEligibleLotBalance db now tenantId customerAccount
            "default_points" "points" rule.earnMerchantId options.expiryDays
            (some rule.expiryDaysOverride)
          if 0 < amount then
            acc ++ [⟨rule.earnMerchantAccount, amount, some rule.settlementAdjustmentBps⟩]
          else acc
        else acc) []

/-- The redeem request as the processor rebuilds it from the joined row. -/
structure RedeemReq where
  accountId : String
  programId : String
  unit : String
  qty : Int
  memo : Option String
  idempotencyKey : Option String
  burnMerchantId : Option String
  partnerHint : Option String
deriving Repr, DecidableEq

/-- The tagged result of a redeem plugin. -/
inductive RedeemResult where
  | success (m : Mutation)
  | failure (reason : String) (retryable : Bool)
deriving Repr, DecidableEq

/-- The settlementAdjustments map of defaultRedeemPlugin.apply: last
attribution entry per account whose bps field is present. -/
def settlementBpsFor (attribution : List AttributionItem) (acct : String) :
    Option (Option Int) :=
  ((attribution.filter (fun it =>
    decide (it.accountId = acct) && it.settlementAdjustmentBps.isSome)).getLast?).bind
    (·.settlementAdjustmentBps)

/-- defaultRedeemPlugin.apply: validate the quantity, read the cross-brand
config, drop frozen partners, compute the attribution (falling back to the
merchant-liability account when it comes back empty), fail on insufficient
balance, choose the allocation by strategy, and emit the redeem entry
(customer debit plus one credit line per allocation item) with its
summary. -/
def defaultRedeemApply (db : DB) (now : Int) (tenantId : String) (redeem : RedeemReq) :
    RedeemResult :=
  let pointsToBurn := redeem.qty
  if pointsToBurn ≤ 0 then RedeemResult.failure "Redemption quantity must be positive" false
  else
    let customerAccount := customerAccountId tenantId redeem.accountId
    let cross := (getProgramConfigDb db tenantId "default_points").bind
      (·.cross_brand_allocation)
    let partnerAccounts := ((cross.map (·.partners)).getD []).map
      (fun p => (⟨p.merchant_account, p.weight.getD 1⟩ : Partner))
    let allocationStrategy := (cross.bind (·.strategy)).getD "priority"
    let burnMerchantId := redeem.burnMerchantId
    let unfrozenPartners := partnerAccounts.filter (fun p => ! isFrozen db tenantId p.accountId)
    let pm := (cross.map (·.partner_map)).getD []
    let attribution := getOutstandingAttribution db now tenantId customerAccount
      ⟨if unfrozenPartners.isEmpty then [merchantAccountId tenantId]
        else unfrozenPartners.map (·.accountId),
        pm, cross.bind (·.expiry_days), burnMerchantId⟩
    let globalAttribution :=
      if attribution.isEmpty then
        getOutstandingAttribution db now tenantId customerAccount
          ⟨[merchantAccountId tenantId], [], none, burnMerchantId⟩
      else attribution
    let eligibleBalance := (globalAttribution.map (·.amount)).sum
    if eligibleBalance < pointsToBurn then RedeemResult.failure "Insufficient balance" false
    else
      match chooseAllocation tenantId allocationStrategy pointsToBurn attribution
        unfrozenPartners redeem.partnerHint with
      | Except.error r => RedeemResult.failure r false
      | Except.ok allocation =>
        if allocation.isEmpty then
          RedeemResult.failure "No eligible merchants for redemption" false
        else
          RedeemResult.success
            ⟨[⟨"default_points", some (redeem.memo.getD "redeem"), none,
                ⟨customerAccount, pointsToBurn, 0, "points"⟩ ::
                  allocation.map (fun item => ⟨item.accountId, 0, item.amount, "points"⟩)⟩],
              some ⟨some pointsToBurn,
                some (allocation.map (fun item =>
                  ⟨item.accountId, item.amount,
                    match settlementBpsFor attribution item.accountId with
                    | some v => v
                    | none => none⟩)),
                burnMerchantId, []⟩⟩

/-- runRedeemPlugins over the statically composed chain
`[defaultRedeemPlugin]`: the first plugin whose shouldHandle accepts wins;
none accepting yields null. -/
def runRedeemPluginsModel (db : DB) (now : Int) (tenantId : String) (redeem : RedeemReq) :
    Option RedeemResult :=
  if redeem.programId = "default_points" ∧ redeem.unit = "points" then
    some (defaultRedeemApply db now tenantId redeem)
  else none

/-- The id supply standing for `generateId` (fresh ULIDs). -/
def idName (n : Nat) : String := "gen_" ++ toString n

/-- Substring occurrence on character lists. -/
def subOccurs (pat : List Char) : List Char → Bool
  | [] => pat.isEmpty
  | c :: rest => pat.isPrefixOf (c :: rest) || subOccurs pat rest

/-- JS String.prototype.includes. -/
def strContains (s pat : String) : Bool := subOccurs pat.toList s.toList

/-- JS String.prototype.startsWith, evaluated on the character lists. -/
def strStartsWith (s pre : String) : Bool := pre.toList.isPrefixOf s.toList

/-- `memo.split(':')[1] ?? null`. -/
def memoMerchantId (memo : String) : Option String :=
  match memo.splitOn ":" with
  | _ :: x :: _ => some x
  | _ => none

/-- resolveExpiryDays inside createPointLot: partner-specific expiry via the
partner map (ignoring falsy lookups), then the per-merchant override, then
the program default; the result is the day count, none meaning never
expire. -/
def resolveExpiryDays (cfg : ProgramCfg) (merchantId : Option String) : Option Int :=
  let cross := cfg.cross_brand_allocation
  let pm := (cross.map (·.partner_map)).getD []
  let partners := (cross.map (·.partners)).getD []
  match merchantId with
  | some mid =>
    if mid = "" then cfg.earn_expiry_days_default
    else
      let viaPartner : Option (Option Int) :=
        match partnerMapLookup pm mid with
        | some pacct =>
          if pacct = "" then none
          else (partners.find? (fun p => decide (p.merchant_account = pacct))).bind
            (·.expiry_days)
        | none => none
      match viaPartner with
      | some v => v
      | none =>
        match cfg.earn_expiry_overrides.find? (fun o => decide (o.merchant_id = mid)) with
        | some o => o.expiry_days
        | none => cfg.earn_expiry_days_default
  | none => cfg.earn_expiry_days_default

/-- createPointLot: one lot per qualifying credit line, qty_total =
qty_remaining = qty, expiry derived from config. -/
def createPointLot (db : DB) (now : Int) (tenantId programId unit customerAccount : String)
    (merchantId : Option String) (earnEntryId : String) (qty : Int) : DB :=
  let cfg := (getProgramConfigDb db tenantId programId).getD ⟨none, none, [], none⟩
  let expiryDays := resolveExpiryDays cfg merchantId
  let lotId := idName db.nextId
  { db with
    nextId := db.nextId + 1,
    lots := db.lots ++ [⟨lotId, tenantId, programId, unit, customerAccount, merchantId,
      qty, qty, expiryDays.map (fun d => now + d * dayMs), now⟩] }

/-- The earnEntryId is threaded but unused by the lot row beyond storage;
kept for faithfulness of the insert. -/
def createPointLotWithEntry (db : DB) (now : Int)
    (tenantId programId unit customerAccount : String)
    (merchantId : Option String) (earnEntryId : String) (qty : Int) : DB :=
  createPointLot db now tenantId programId unit customerAccount merchantId earnEntryId qty

/-- `postLedgerEntries` acting on the database state: entries посted one at
a time; an unbalanced entry throws, leaving the inserts already issued on
the open transaction. Returns the entry ids of the posted entries. -/
def postEntriesDb (db : DB) (tenantId : String) :
    List LedgerEntry → DB × List String × Except String Unit
  | [] => (db, [], Except.ok ())
  | e :: rest =>
    if e.lines.length = 0 then postEntriesDb db tenantId rest
    else
      match ensureBalanced e with
      | Except.error msg => (db, [], Except.error msg)
      | Except.ok _ =>
        let eid := idName db.nextId
        let db2 := { db with
          nextId := db.nextId + 1,
          journal := db.journal ++ [⟨eid, tenantId, e.programId, e.receiptId, e.memo⟩],
          ledgerLines := db.ledgerLines ++ lineRowsOf eid e.lines }
        let res := postEntriesDb db2 tenantId rest
        (res.1, eid :: res.2.1, res.2.2)

/-- The credit-line loop of the earn-lot creation step. -/
def creditLotsLoop (db : DB) (now : Int) (tenantId programId : String)
    (mid : Option String) (eid : String) : List LedgerLine → DB
  | [] => db
  | line :: rest =>
    let db2 :=
      if decide (0 < line.credit) && decide (line.unit = "points") then
        createPointLotWithEntry db now tenantId programId line.unit line.accountId mid eid
          line.credit
      else db
    creditLotsLoop db2 now tenantId programId mid eid rest

/-- The per-entry earn-lot loop of applyMutations: entries are scanned with
their index against the returned id array (an entry whose memo starts with
earn: creates a lot for each positive points credit line). -/
def earnLotsLoop (db : DB) (now : Int) (tenantId : String) :
    List LedgerEntry → List String → DB
  | [], _ => db
  | e :: rest, ids =>
    let db2 :=
      if strStartsWith (e.memo.getD "") "earn:" then
        creditLotsLoop db now tenantId e.programId (memoMerchantId (e.memo.getD ""))
          (ids.headD "undefined") e.lines
      else db
    earnLotsLoop db2 now tenantId rest ids.tail

/-- The byAccount reverse partner map: all merchant ids mapped to an
account, in partner-map order; absent accounts give null. -/
def merchantsForAccount (pm : List PartnerMapEntry) (acct : String) : Option (List String) :=
  let ids := (pm.filter (fun e => decide (e.merchant_account = acct))).map (·.merchant_id)
  if ids.isEmpty then none else some ids

/-- The first customer debit line of the mutation: positive points debit on
an account containing the ::acct:: marker. -/
def findCustomerDebit : List LedgerEntry → Option (String × String × String)
  | [] => none
  | e :: rest =>
    match e.lines.find? (fun line =>
      decide (0 < line.debit) && decide (line.unit = "points") &&
        strContains line.accountId "::acct::") with
    | some line => some (line.accountId, e.programId, line.unit)
    | none => findCustomerDebit rest

/-- The per-allocation-item consumption loop; the first failing
`consumeLots` throw aborts the loop, keeping the decrements it already
issued. -/
def consumeAllocItems (db : DB) (now : Int)
    (tenantId customerAccount programId unit : String)
    (pm : List PartnerMapEntry) (ruleSet : List MerchantRuleRow)
    (globalExpiryDays : Option Int) :
    List SummaryAllocItem → DB × Except String Unit
  | [] => (db, Except.ok ())
  | item :: rest =>
    let base := merchantsForAccount pm item.merchant_account
    let scope :=
      match ruleByAccount ruleSet item.merchant_account with
      | some rule => (some [rule.earnMerchantId], some rule.expiryDaysOverride)
      | none => (base, (none : Option (Option Int)))
    let res := consumeLots now tenantId ⟨customerAccount, programId, unit, item.amount⟩
      scope.1 ⟨globalExpiryDays, scope.2⟩ db.lots
    match res.2 with
    | Except.error msg => ({ db with lots := res.1 }, Except.error msg)
    | Except.ok _ =>
      consumeAllocItems { db with lots := res.1 } now tenantId customerAccount programId
        unit pm ruleSet globalExpiryDays rest

/-- consumePointLotsForRedemption: locate the customer debit, read config
and rules, and consume lots per allocation item (or untargeted FIFO of
points_redeemed when the allocation array is empty). -/
def consumePointLotsForRedemption (db : DB) (now : Int) (tenantId : String) (m : Mutation) :
    DB × Except String Unit :=
  match findCustomerDebit m.entries with
  | none => (db, Except.ok ())
  | some found =>
    let customerAccount := found.1
    let programId := found.2.1
    let unit := found.2.2
    let cfg := (getProgramConfigDb db tenantId programId).getD ⟨none, none, [], none⟩
    let cross := cfg.cross_brand_allocation
    let pm := (cross.map (·.partner_map)).getD []
    let globalExpiryDays : Option Int :=
      match cross.bind (·.expiry_days) with
      | some d => if 0 ≤ d then some d else none
      | none => none
    let allocation := (m.summary.bind (·.allocation)).getD []
    let burnMerchantId := m.summary.bind (·.burn_merchant_id)
    let ruleSet := rulesFor db tenantId burnMerchantId
    if allocation.isEmpty then
      let total := (m.summary.bind (·.points_redeemed)).getD 0
      if 0 < total then
        let res := consumeLots now tenantId ⟨customerAccount, programId, unit, total⟩ none
          ⟨globalExpiryDays, none⟩ db.lots
        ({ db with lots := res.1 }, res.2)
      else (db, Except.ok ())
    else
      consumeAllocItems db now tenantId customerAccount programId unit pm ruleSet
        globalExpiryDays allocation

/-- applyMutations: per mutation, skip when no entries, post the entries,
create lots for earn entries, and consume lots when the summary carries an
allocation array; the first throw stops the loop with all effects issued so
far kept on the open transaction. -/
def applyMutations (db : DB) (now : Int) (tenantId : String) :
    List Mutation → DB × Except String Unit
  | [] => (db, Except.ok ())
  | m :: rest =>
    if m.entries.isEmpty then applyMutations db now tenantId rest
    else
      let post := postEntriesDb db tenantId m.entries
      match post.2.2 with
      | Except.error msg => (post.1, Except.error msg)
      | Except.ok _ =>
        let db2 := earnLotsLoop post.1 now tenantId m.entries post.2.1
        if (m.summary.bind (·.allocation)).isSome then
          let res := consumePointLotsForRedemption db2 now tenantId m
          match res.2 with
          | Except.error msg => (res.1, Except.error msg)
          | Except.ok _ => applyMutations res.1 now tenantId rest
        else applyMutations db2 now tenantId rest

/-! ## Job selection and state transitions -/

/-- Which of the two structurally identical job tables. -/
inductive WhichTable where
  | receiptJobs
  | redeemJobs
deriving Repr, DecidableEq

/-- Read one job table. -/
def getJobs (db : DB) : WhichTable → List JobRow
  | WhichTable.receiptJobs => db.receiptJobs
  | WhichTable.redeemJobs => db.redeemJobs

/-- Write one job table. -/
def setJobs (db : DB) : WhichTable → List JobRow → DB
  | WhichTable.receiptJobs, l => { db with receiptJobs := l }
  | WhichTable.redeemJobs, l => { db with redeemJobs := l }

/-- job_type of the notification row. -/
def jobTypeName : WhichTable → String
  | WhichTable.receiptJobs => "receipt"
  | WhichTable.redeemJobs => "redeem"

/-- SQL UPDATE keyed on job_id. -/
def updateJob (jobs : List JobRow) (jid : String) (f : JobRow → JobRow) : List JobRow :=
  jobs.map (fun j => if j.jobId = jid then f j else j)

/-- The job SELECT: `status = 'pending' AND available_at <= NOW() ORDER BY
created_at LIMIT 1` (ties keep the earlier row; the FOR UPDATE SKIP LOCKED
clause concerns concurrent workers only). -/
def selectPendingJob (now : Int) (jobs : List JobRow) : Option JobRow :=
  (jobs.filter (fun j =>
    decide (j.status = JobStatus.pending) && decide (j.availableAt ≤ now))).foldl
    (fun acc j =>
      match acc with
      | none => some j
      | some m => if j.createdAt < m.createdAt then some j else some m)
    none

/-- queueJobNotification: insert one outbox row with a fresh id. -/
def queueJobNotification (db : DB) (tbl : WhichTable) (job : JobRow) (status : String)
    (summary : Option JobSummary) (error : Option String) : DB :=
  { db with
    nextId := db.nextId + 1,
    notifications := db.notifications ++
      [⟨idName db.nextId, job.tenantId, jobTypeName tbl, job.jobId, job.referenceId,
        status, summary, error.map truncateError⟩] }

/-- rescheduleOrFail: below max_attempts reschedule to pending with backoff
`min(60s, attempts × 5s)`; at or above it finalize as failed (recording
completed_at and queueing a failed notification). The attempts column was
already incremented by the pick-up update. -/
def rescheduleOrFail (db : DB) (tbl : WhichTable) (job : JobRow) (attempts : Int)
    (error : String) (now : Int) (maxAttempts : Int) : DB :=
  let shouldRetry := attempts < maxAttempts
  let delayMs := min 60000 (attempts * 5000)
  let availableAtValue := if shouldRetry then now + delayMs else now
  let statusValue := if shouldRetry then JobStatus.pending else JobStatus.failed
  let completedAtValue : Option Int := if shouldRetry then none else some now
  let db2 := setJobs db tbl (updateJob (getJobs db tbl) job.jobId (fun j =>
    { j with
        status := statusValue, availableAt := availableAtValue,
        completedAt := completedAtValue, resultSummary := none,
        lastError := some (truncateError error) }))
  if shouldRetry then db2 else queueJobNotification db2 tbl job "failed" none (some error)

/-- markJobAsFailed simply delegates to rescheduleOrFail. -/
def markJobAsFailed (db : DB) (tbl : WhichTable) (job : JobRow) (attempts : Int)
    (error : String) (now : Int) (maxAttempts : Int) : DB :=
  rescheduleOrFail db tbl job attempts error now maxAttempts

/-- completeJobWithFailure: terminal failure for a nonretryable plugin
result — status failed, completed_at now, the failure marker summary, the
reason as last_error, and a failed notification. -/
def completeJobWithFailure (db : DB) (tbl : WhichTable) (job : JobRow) (reason : String)
    (now : Int) : DB :=
  let db2 := setJobs db tbl (updateJob (getJobs db tbl) job.jobId (fun j =>
    { j with
        status := JobStatus.failed, completedAt := some now,
        resultSummary := some (JobSummary.failure reason),
        lastError := some (truncateError reason) }))
  queueJobNotification db2 tbl job "failed" (some (JobSummary.failure reason)) (some reason)

/-- The redeem_requests row of a job reference. -/
def findRequest (db : DB) (rid : String) : Option RedeemRequestRow :=
  db.redeemRequests.find? (fun r => decide (r.requestId = rid))

/-- The redeem job SELECT joins redeem_requests; jobs without a request row
are not selected. -/
def selectRedeemJob (db : DB) (now : Int) : Option (JobRow × RedeemRequestRow) :=
  match selectPendingJob now
    (db.redeemJobs.filter (fun j => (findRequest db j.referenceId).isSome)) with
  | some j => (findRequest db j.referenceId).map (fun r => (j, r))
  | none => none

/-- The receipts row of a job reference. -/
def findReceipt (db : DB) (rid : String) : Option ReceiptRow :=
  db.receipts.find? (fun r => decide (r.receiptId = rid))

/-- Modelled from the spec: the withTransaction wrapper of db.ts (absent
from src/) opens a transaction, runs the body, COMMITs when the body
returns normally and ROLLs BACK only when the body throws. processRedeemJob
is that body; since every error raised inside it is caught by its own catch
(which updates the job row on the same client), the body always returns
normally and the transaction always COMMITs the produced state. -/
def processRedeemJob (db : DB) (now : Int) (maxAttempts : Int) : DB × Bool :=
  match selectRedeemJob db now with
  | none => (db, false)
  | some picked =>
    let job := picked.1
    let req := picked.2
    let db1 := { db with redeemJobs := updateJob db.redeemJobs job.jobId (fun j =>
      { j with
          status := JobStatus.processing, attempts := j.attempts + 1,
          lastError := none }) }
    let redeem : RedeemReq := ⟨req.accountId, req.programId, req.unit, req.qty, req.memo,
      req.idempotencyKey, req.burnMerchantId, none⟩
    match runRedeemPluginsModel db1 now job.tenantId redeem with
    | none =>
      (rescheduleOrFail db1 WhichTable.redeemJobs job (job.attempts + 1)
        "No redeem plugin accepted the request" now maxAttempts, true)
    | some (RedeemResult.failure reason retryable) =>
      if retryable then
        (rescheduleOrFail db1 WhichTable.redeemJobs job (job.attempts + 1) reason now
          maxAttempts, true)
      else
        (completeJobWithFailure db1 WhichTable.redeemJobs job reason now, true)
    | some (RedeemResult.success m) =>
      let applied := applyMutations db1 now job.tenantId [m]
      match applied.2 with
      | Except.error msg =>
        (rescheduleOrFail applied.1 WhichTable.redeemJobs job (job.attempts + 1) msg now
          maxAttempts, true)
      | Except.ok _ =>
        let summaryJ := m.summary.map JobSummary.fromMutation
        let newJobs := updateJob applied.1.redeemJobs job.jobId (fun j =>
          { j with
              status := JobStatus.completed, completedAt := some now,
              resultSummary := summaryJ })
        let db3 := { applied.1 with redeemJobs := newJobs }
        (queueJobNotification db3 WhichTable.redeemJobs job "completed" summaryJ none, true)

/-- Modelled from the spec: same single-withTransaction structure as
processRedeemJob (COMMIT whenever the body returns normally, and the body
catches its own errors). processReceiptJob is parameterized by the composed
receipt plugin chain (runPlugins over the static chain; a plugin throw
surfaces as the error case). -/
def processReceiptJob (plugins : DB → String → String → Receipt → Except String (List Mutation))
    (db : DB) (now : Int) (maxAttempts : Int) : DB × Bool :=
  match selectPendingJob now db.receiptJobs with
  | none => (db, false)
  | some job =>
    let db1 := { db with receiptJobs := updateJob db.receiptJobs job.jobId (fun j =>
      { j with
          status := JobStatus.processing, attempts := j.attempts + 1,
          lastError := none }) }
    match findReceipt db1 job.referenceId with
    | none =>
      (markJobAsFailed db1 WhichTable.receiptJobs job (job.attempts + 1)
        "Receipt payload missing" now maxAttempts, true)
    | some r =>
      match plugins db1 job.tenantId job.referenceId r.payload with
      | Except.error msg =>
        (rescheduleOrFail db1 WhichTable.receiptJobs job (job.attempts + 1) msg now
          maxAttempts, true)
      | Except.ok mutations =>
        let applied := applyMutations db1 now job.tenantId mutations
        match applied.2 with
        | Except.error msg =>
          (rescheduleOrFail applied.1 WhichTable.receiptJobs job (job.attempts + 1) msg now
            maxAttempts, true)
        | Except.ok _ =>
          let summaries := mutations.filterMap (·.summary)
          let summaryJ :=
            if summaries.isEmpty then none else some (JobSummary.receiptMerged summaries)
          let newJobs := updateJob applied.1.receiptJobs job.jobId (fun j =>
            { j with
                status := JobStatus.completed,
                completedAt := some now, resultSummary := summaryJ })
          let db3 := { applied.1 with receiptJobs := newJobs }
          (queueJobNotification db3 WhichTable.receiptJobs job "completed" summaryJ none, true)

/-- processNextJob: a receipt job first, else a redeem job. -/
def processNextJob (plugins : DB → String → String → Receipt → Except String (List Mutation))
    (db : DB) (now : Int) (maxAttempts : Int) : DB × Bool :=
  let r := processReceiptJob plugins db now maxAttempts
  if r.2 then r else processRedeemJob r.1 now maxAttempts

/-! ## Terminality of completed and failed jobs -/

lemma length_updateJob (jobs : List JobRow) (jid : String) (f : JobRow → JobRow) :
    (updateJob jobs jid f).length = jobs.length := by
  simp [updateJob]

lemma queueJobNotification_getJobs (db : DB) (tbl : WhichTable) (job : JobRow)
    (status : String) (summary : Option JobSummary) (error : Option String)
    (tbl2 : WhichTable) :
    getJobs (queueJobNotification db tbl job status summary error) tbl2 = getJobs db tbl2 := by
  cases tbl2 <;> rfl

lemma createPointLot_getJobs (db : DB) (now : Int)
    (tenantId programId unit customerAccount : String) (merchantId : Option String)
    (earnEntryId : String) (qty : Int) (tbl : WhichTable) :
    getJobs (createPointLot db now tenantId programId unit customerAccount merchantId
      earnEntryId qty) tbl = getJobs db tbl := by
  cases tbl <;> rfl

lemma postEntriesDb_getJobs (db : DB) (tenantId : String) (es : List LedgerEntry)
    (tbl : WhichTable) : getJobs (postEntriesDb db tenantId es).1 tbl = getJobs db tbl := by
  induction es generalizing db with
  | nil => rfl
  | cons e rest ih =>
    rw [postEntriesDb]
    by_cases h : e.lines.length = 0
    · rw [if_pos h]; exact ih db
    · rw [if_neg h]
      rcases hb : ensureBalanced e with m | u
      · rfl
      · have := ih { db with
          nextId := db.nextId + 1,
          journal := db.journal ++ [⟨idName db.nextId, tenantId, e.programId, e.receiptId,
            e.memo⟩],
          ledgerLines := db.ledgerLines ++ lineRowsOf (idName db.nextId) e.lines }
        cases tbl <;> simpa [getJobs] using this

lemma creditLotsLoop_getJobs (db : DB) (now : Int) (tenantId programId : String)
    (mid : Option String) (eid : String) (lines : List LedgerLine) (tbl : WhichTable) :
    getJobs (creditLotsLoop db now tenantId programId mid eid lines) tbl = getJobs db tbl := by
  induction lines generalizing db with
  | nil => rfl
  | cons line rest ih =>
    rw [creditLotsLoop]
    rw [ih]
    by_cases h : (decide (0 < line.credit) && decide (line.unit = "points")) = true
    · rw [if_pos h, createPointLotWithEntry, createPointLot_getJobs]
    · rw [if_neg h]

set_option maxHeartbeats 1000000 in
lemma earnLotsLoop_getJobs (db : DB) (now : Int) (tenantId : String)
    (es : List LedgerEntry) (ids : List String) (tbl : WhichTable) :
    getJobs (earnLotsLoop db now tenantId es ids) tbl = getJobs db tbl := by
  induction es generalizing db ids with
  | nil => rfl
  | cons e rest ih =>
    simp only [earnLotsLoop]
    rw [ih]
    by_cases h : (strStartsWith (e.memo.getD "") "earn:") = true
    · rw [if_pos h, creditLotsLoop_getJobs]
    · rw [if_neg h]

lemma consumeAllocItems_getJobs (db : DB) (now : Int)
    (tenantId customerAccount programId unit : String) (pm : List PartnerMapEntry)
    (ruleSet : List MerchantRuleRow) (g : Option Int) (items : List SummaryAllocItem)
    (tbl : WhichTable) :
    getJobs (consumeAllocItems db now tenantId customerAccount programId unit pm ruleSet
      g items).1 tbl = getJobs db tbl := by
  induction items generalizing db with
  | nil => rfl
  | cons item rest ih =>
    rw [consumeAllocItems]
    rcases hres : (consumeLots now tenantId ⟨customerAccount, programId, unit, item.amount⟩
      (match ruleByAccount ruleSet item.merchant_account with
        | some rule => (some [rule.earnMerchantId], some rule.expiryDaysOverride)
        | none => (merchantsForAccount pm item.merchant_account,
            (none : Option (Option Int)))).1
      ⟨g, (match ruleByAccount ruleSet item.merchant_account with
        | some rule => (some [rule.earnMerchantId], some rule.expiryDaysOverride)
        | none => (merchantsForAccount pm item.merchant_account,
            (none : Option (Option Int)))).2⟩ db.lots).2 with m | u
    · simp only [hres]
      cases tbl <;> rfl
    · simp only [hres]
      have := ih { db with lots := (consumeLots now tenantId
        ⟨customerAccount, programId, unit, item.amount⟩
        (match ruleByAccount ruleSet item.merchant_account with
          | some rule => (some [rule.earnMerchantId], some rule.expiryDaysOverride)
          | none => (merchantsForAccount pm item.merchant_account,
              (none : Option (Option Int)))).1
        ⟨g, (match ruleByAccount ruleSet item.merchant_account with
          | some rule => (some [rule.earnMerchantId], some rule.expiryDaysOverride)
          | none => (merchantsForAccount pm item.merchant_account,
              (none : Option (Option Int)))).2⟩ db.lots).1 }
      cases tbl <;> simpa [getJobs] using this

lemma consumePointLots_getJobs (db : DB) (now : Int) (tenantId : String) (m : Mutation)
    (tbl : WhichTable) :
    getJobs (consumePointLotsForRedemption db now tenantId m).1 tbl = getJobs db tbl := by
  rw [consumePointLotsForRedemption]
  rcases findCustomerDebit m.entries with _ | found
  · rfl
  · simp only
    by_cases ha : ((m.summary.bind (·.allocation)).getD []).isEmpty
    · rw [if_pos ha]
      by_cases ht : 0 < (m.summary.bind (·.points_redeemed)).getD 0
      · rw [if_pos ht]
        cases tbl <;> rfl
      · rw [if_neg ht]
    · rw [if_neg ha]
      exact consumeAllocItems_getJobs db now tenantId found.1 found.2.1 found.2.2 _ _ _ _ tbl

lemma applyMutations_getJobs (db : DB) (now : Int) (tenantId : String)
    (ms : List Mutation) (tbl : WhichTable) :
    getJobs (applyMutations db now tenantId ms).1 tbl = getJobs db tbl := by
  induction ms generalizing db with
  | nil => rfl
  | cons m rest ih =>
    rw [applyMutations]
    by_cases he : m.entries.isEmpty
    · rw [if_pos he]; exact ih db
    · rw [if_neg he]
      rcases hpost : (postEntriesDb db tenantId m.entries).2.2 with msg | u
      · simp only [hpost]
        exact postEntriesDb_getJobs db tenantId m.entries tbl
      · simp only [hpost]
        by_cases hal : (m.summary.bind (·.allocation)).isSome
        · rw [if_pos hal]
          rcases hcons : (consumePointLotsForRedemption
            (earnLotsLoop (postEntriesDb db tenantId m.entries).1 now tenantId m.entries
              (postEntriesDb db tenantId m.entries).2.1) now tenantId m).2 with msg | u2
          · simp only [hcons]
            rw [consumePointLots_getJobs, earnLotsLoop_getJobs, postEntriesDb_getJobs]
          · simp only [hcons]
            rw [ih, consumePointLots_getJobs, earnLotsLoop_getJobs, postEntriesDb_getJobs]
        · rw [if_neg hal]
          rw [ih, earnLotsLoop_getJobs, postEntriesDb_getJobs]

lemma getJobs_setJobs (db : DB) (t1 t2 : WhichTable) (l : List JobRow) :
    getJobs (setJobs db t1 l) t2 = if t1 = t2 then l else getJobs db t2 := by
  cases t1 <;> cases t2 <;> rfl

lemma rescheduleOrFail_shape (db : DB) (tbl : WhichTable) (job : JobRow) (attempts : Int)
    (error : String) (now maxAttempts : Int) :
    ∃ f, (getJobs (rescheduleOrFail db tbl job attempts error now maxAttempts) tbl =
        updateJob (getJobs db tbl) job.jobId f) ∧
      ∀ t2, t2 ≠ tbl →
        getJobs (rescheduleOrFail db tbl job attempts error now maxAttempts) t2 =
          getJobs db t2 := by
  simp only [rescheduleOrFail]
  by_cases h : attempts < maxAttempts
  · simp only [if_pos h]
    refine ⟨fun j =>
      { j with
          status := JobStatus.pending, availableAt := now + min 60000 (attempts * 5000),
          completedAt := none, resultSummary := none,
          lastError := some (truncateError error) }, ?_, ?_⟩
    · rw [getJobs_setJobs, if_pos rfl]
    · intro t2 ht2
      rw [getJobs_setJobs, if_neg (fun hx => ht2 hx.symm)]
  · simp only [if_neg h]
    refine ⟨fun j =>
      { j with
          status := JobStatus.failed, availableAt := now, completedAt := some now,
          resultSummary := none, lastError := some (truncateError error) }, ?_, ?_⟩
    · rw [queueJobNotification_getJobs, getJobs_setJobs, if_pos rfl]
    · intro t2 ht2
      rw [queueJobNotification_getJobs, getJobs_setJobs, if_neg (fun hx => ht2 hx.symm)]

lemma completeJobWithFailure_shape (db : DB) (tbl : WhichTable) (job : JobRow)
    (reason : String) (now : Int) :
    ∃ f, (getJobs (completeJobWithFailure db tbl job reason now) tbl =
        updateJob (getJobs db tbl) job.jobId f) ∧
      ∀ t2, t2 ≠ tbl →
        getJobs (completeJobWithFailure db tbl job reason now) t2 = getJobs db t2 := by
  simp only [completeJobWithFailure]
  refine ⟨fun j =>
    { j with
        status := JobStatus.failed, completedAt := some now,
        resultSummary := some (JobSummary.failure reason),
        lastError := some (truncateError reason) }, ?_, ?_⟩
  · rw [queueJobNotification_getJobs, getJobs_setJobs, if_pos rfl]
  · intro t2 ht2
    rw [queueJobNotification_getJobs, getJobs_setJobs, if_neg (fun hx => ht2 hx.symm)]

lemma selectPendingJob_mem (now : Int) (jobs : List JobRow) (j : JobRow)
    (h : selectPendingJob now jobs = some j) :
    j ∈ jobs ∧ j.status = JobStatus.pending := by
  rw [selectPendingJob] at h
  have key : ∀ (l : List JobRow) (acc : Option JobRow),
      l.foldl (fun acc j =>
        match acc with
        | none => some j
        | some m => if j.createdAt < m.createdAt then some j else some m) acc = some j →
      acc = some j ∨ j ∈ l := by
    intro l
    induction l with
    | nil => intro acc hacc; exact Or.inl hacc
    | cons a rest ih =>
      intro acc hacc
      rcases ih _ hacc with hmid | hmem
      · rcases acc with _ | m
        · simp only at hmid
          right
          rw [← Option.some.inj hmid]
          exact List.mem_cons_self a rest
        · simp only at hmid
          by_cases hc : a.createdAt < m.createdAt
          · rw [if_pos hc] at hmid
            right
            rw [← Option.some.inj hmid]
            exact List.mem_cons_self a rest
          · rw [if_neg hc] at hmid
            exact Or.inl hmid
      · exact Or.inr (List.mem_cons_of_mem a hmem)
  rcases key _ _ h with hnone | hmem
  · exact Option.noConfusion hnone
  · have hf := List.mem_filter.mp hmem
    refine ⟨hf.1, ?_⟩
    have := hf.2
    simp only [Bool.and_eq_true, decide_eq_true_eq] at this
    exact this.1

lemma processReceiptJob_shape
    (plugins : DB → String → String → Receipt → Except String (List Mutation))
    (db : DB) (now maxAttempts : Int) :
    ((processReceiptJob plugins db now maxAttempts).1.redeemJobs = db.redeemJobs) ∧
    ((processReceiptJob plugins db now maxAttempts).1.receiptJobs = db.receiptJobs ∨
      ∃ sel f1 f2, sel ∈ db.receiptJobs ∧ sel.status = JobStatus.pending ∧
        (processReceiptJob plugins db now maxAttempts).1.receiptJobs =
          updateJob (updateJob db.receiptJobs sel.jobId f1) sel.jobId f2) := by
  rw [processReceiptJob]
  split
  · exact ⟨rfl, Or.inl rfl⟩
  · rename_i job hsel
    obtain ⟨hmem, hpend⟩ := selectPendingJob_mem now db.receiptJobs job hsel
    dsimp only
    set db1 := { db with receiptJobs := updateJob db.receiptJobs job.jobId (fun j =>
      { j with
          status := JobStatus.processing, attempts := j.attempts + 1,
          lastError := none }) } with hdb1
    split
    · obtain ⟨f, hf, ho⟩ := rescheduleOrFail_shape db1 WhichTable.receiptJobs job
        (job.attempts + 1) "Receipt payload missing" now maxAttempts
      have ho2 := ho WhichTable.redeemJobs (by simp)
      simp only [getJobs] at hf ho2
      refine ⟨?_, Or.inr ⟨job, fun j =>
        { j with
            status := JobStatus.processing, attempts := j.attempts + 1,
            lastError := none }, f, hmem, hpend, ?_⟩⟩
      · rw [markJobAsFailed, ho2]
      · rw [markJobAsFailed, hf]
    · rename_i r hrec
      split
      · rename_i msg hpl
        obtain ⟨f, hf, ho⟩ := rescheduleOrFail_shape db1 WhichTable.receiptJobs job
          (job.attempts + 1) msg now maxAttempts
        have ho2 := ho WhichTable.redeemJobs (by simp)
        simp only [getJobs] at hf ho2
        refine ⟨?_, Or.inr ⟨job, fun j =>
          { j with
              status := JobStatus.processing, attempts := j.attempts + 1,
              lastError := none }, f, hmem, hpend, ?_⟩⟩
        · rw [ho2]
        · rw [hf]
      · rename_i muts hpl
        have hamr := applyMutations_getJobs db1 now job.tenantId muts
          WhichTable.receiptJobs
        have hamd := applyMutations_getJobs db1 now job.tenantId muts
          WhichTable.redeemJobs
        simp only [getJobs] at hamr hamd
        split
        · rename_i msg happ
          obtain ⟨f, hf, ho⟩ := rescheduleOrFail_shape
            (applyMutations db1 now job.tenantId muts).1 WhichTable.receiptJobs job
            (job.attempts + 1) msg now maxAttempts
          have ho2 := ho WhichTable.redeemJobs (by simp)
          simp only [getJobs] at hf ho2
          refine ⟨?_, Or.inr ⟨job, fun j =>
            { j with
                status := JobStatus.processing, attempts := j.attempts + 1,
                lastError := none }, f, hmem, hpend, ?_⟩⟩
          · rw [ho2, hamd]
          · rw [hf, hamr]
        · rename_i u happ
          dsimp only [queueJobNotification]
          refine ⟨?_, Or.inr ⟨job, fun j =>
            { j with
                status := JobStatus.processing, attempts := j.attempts + 1,
                lastError := none }, fun j =>
            { j with
                status := JobStatus.completed, completedAt := some now,
                resultSummary := if (muts.filterMap (fun x => x.summary)).isEmpty then none
                  else some (JobSummary.receiptMerged
                    (muts.filterMap (fun x => x.summary))) }, hmem, hpend, ?_⟩⟩
          · rw [hamd]
          · rw [hamr]

lemma selectRedeemJob_mem (db : DB) (now : Int) (p : JobRow × RedeemRequestRow)
    (h : selectRedeemJob db now = some p) :
    p.1 ∈ db.redeemJobs ∧ p.1.status = JobStatus.pending := by
  rw [selectRedeemJob] at h
  rcases hsp : selectPendingJob now
      (db.redeemJobs.filter (fun j => (findRequest db j.referenceId).isSome)) with _ | j
  · rw [hsp] at h; exact Option.noConfusion h
  · rw [hsp] at h
    simp only [Option.map_eq_some'] at h
    obtain ⟨r, hr, hp⟩ := h
    obtain ⟨hmem, hpend⟩ := selectPendingJob_mem now _ j hsp
    have hj := (List.mem_filter.mp hmem).1
    rw [← hp]
    exact ⟨hj, hpend⟩

lemma processRedeemJob_shape (db : DB) (now maxAttempts : Int) :
    ((processRedeemJob db now maxAttempts).1.receiptJobs = db.receiptJobs) ∧
    ((processRedeemJob db now maxAttempts).1.redeemJobs = db.redeemJobs ∨
      ∃ sel f1 f2, sel ∈ db.redeemJobs ∧ sel.status = JobStatus.pending ∧
        (processRedeemJob db now maxAttempts).1.redeemJobs =
          updateJob (updateJob db.redeemJobs sel.jobId f1) sel.jobId f2) := by
  rw [processRedeemJob]
  split
  · exact ⟨rfl, Or.inl rfl⟩
  · rename_i picked hsel
    obtain ⟨hmem, hpend⟩ := selectRedeemJob_mem db now picked hsel
    dsimp only
    set db1 := { db with redeemJobs := updateJob db.redeemJobs picked.1.jobId (fun j =>
      { j with
          status := JobStatus.processing, attempts := j.attempts + 1,
          lastError := none }) } with hdb1
    split
    · obtain ⟨f, hf, ho⟩ := rescheduleOrFail_shape db1 WhichTable.redeemJobs picked.1
        (picked.1.attempts + 1) "No redeem plugin accepted the request" now maxAttempts
      have ho2 := ho WhichTable.receiptJobs (by simp)
      simp only [getJobs] at hf ho2
      refine ⟨?_, Or.inr ⟨picked.1, fun j =>
        { j with
            status := JobStatus.processing, attempts := j.attempts + 1,
            lastError := none }, f, hmem, hpend, ?_⟩⟩
      · rw [ho2]
      · rw [hf]
    · rename_i reason retryable hpl
      split
      · obtain ⟨f, hf, ho⟩ := rescheduleOrFail_shape db1 WhichTable.redeemJobs picked.1
          (picked.1.attempts + 1) reason now maxAttempts
        have ho2 := ho WhichTable.receiptJobs (by simp)
        simp only [getJobs] at hf ho2
        refine ⟨?_, Or.inr ⟨picked.1, fun j =>
          { j with
              status := JobStatus.processing, attempts := j.attempts + 1,
              lastError := none }, f, hmem, hpend, ?_⟩⟩
        · rw [ho2]
        · rw [hf]
      · obtain ⟨f, hf, ho⟩ := completeJobWithFailure_shape db1 WhichTable.redeemJobs
          picked.1 reason now
        have ho2 := ho WhichTable.receiptJobs (by simp)
        simp only [getJobs] at hf ho2
        refine ⟨?_, Or.inr ⟨picked.1, fun j =>
          { j with
              status := JobStatus.processing, attempts := j.attempts + 1,
              lastError := none }, f, hmem, hpend, ?_⟩⟩
        · rw [ho2]
        · rw [hf]
    · rename_i m hpl
      have hamr := applyMutations_getJobs db1 now picked.1.tenantId [m]
        WhichTable.receiptJobs
      have hamd := applyMutations_getJobs db1 now picked.1.tenantId [m]
        WhichTable.redeemJobs
      simp only [getJobs] at hamr hamd
      split
      · rename_i msg happ
        obtain ⟨f, hf, ho⟩ := rescheduleOrFail_shape
          (applyMutations db1 now picked.1.tenantId [m]).1 WhichTable.redeemJobs picked.1
          (picked.1.attempts + 1) msg now maxAttempts
        have ho2 := ho WhichTable.receiptJobs (by simp)
        simp only [getJobs] at hf ho2
        refine ⟨?_, Or.inr ⟨picked.1, fun j =>
          { j with
              status := JobStatus.processing, attempts := j.attempts + 1,
              lastError := none }, f, hmem, hpend, ?_⟩⟩
        · rw [ho2, hamr]
        · rw [hf, hamd]
      · rename_i u happ
        dsimp only [queueJobNotification]
        refine ⟨?_, Or.inr ⟨picked.1, fun j =>
          { j with
              status := JobStatus.processing, attempts := j.attempts + 1,
              lastError := none }, fun j =>
          { j with
              status := JobStatus.completed, completedAt := some now,
              resultSummary := m.summary.map JobSummary.fromMutation }, hmem, hpend, ?_⟩⟩
        · rw [hamr]
        · rw [hamd]

lemma updateJob_get_ne (jobs : List JobRow) (jid : String) (f : JobRow → JobRow)
    (i : Nat) (hi : i < jobs.length) (hi2 : i < (updateJob jobs jid f).length)
    (hne : (jobs.get ⟨i, hi⟩).jobId ≠ jid) :
    (updateJob jobs jid f).get ⟨i, hi2⟩ = jobs.get ⟨i, hi⟩ := by
  have step : (updateJob jobs jid f).get ⟨i, hi2⟩ =
      (fun j => if j.jobId = jid then f j else j) (jobs.get ⟨i, hi⟩) := by
    simp [updateJob, List.get_eq_getElem, List.getElem_map]
  rw [step]
  simp only
  rw [if_neg hne]

lemma terminal_preserved (jobs jobs2 : List JobRow)
    (hnd : (jobs.map JobRow.jobId).Nodup)
    (hshape : jobs2 = jobs ∨ ∃ sel f1 f2, sel ∈ jobs ∧ sel.status = JobStatus.pending ∧
      jobs2 = updateJob (updateJob jobs sel.jobId f1) sel.jobId f2)
    (i : Nat) (hi : i < jobs.length)
    (hterm : (jobs.get ⟨i, hi⟩).status = JobStatus.completed ∨
      (jobs.get ⟨i, hi⟩).status = JobStatus.failed) :
    jobs2[i]? = some (jobs.get ⟨i, hi⟩) := by
  rcases hshape with heq | ⟨sel, f1, f2, hmem, hpend, heq⟩
  · subst heq
    rw [List.getElem?_eq_getElem hi, List.get_eq_getElem]
  · subst heq
    have hid : (jobs.get ⟨i, hi⟩).jobId ≠ sel.jobId := by
      intro h
      have := List.inj_on_of_nodup_map hnd (List.get_mem jobs i hi) hmem h
      rw [this] at hterm
      rw [hpend] at hterm
      rcases hterm with h2 | h2 <;> exact JobStatus.noConfusion h2
    have hlen1 : i < (updateJob jobs sel.jobId f1).length := by
      rw [length_updateJob]; exact hi
    have hi2 : i < (updateJob (updateJob jobs sel.jobId f1) sel.jobId f2).length := by
      rw [length_updateJob, length_updateJob]; exact hi
    have hinner : (updateJob jobs sel.jobId f1).get ⟨i, hlen1⟩ = jobs.get ⟨i, hi⟩ :=
      updateJob_get_ne jobs sel.jobId f1 i hi hlen1 hid
    have houter : (updateJob (updateJob jobs sel.jobId f1) sel.jobId f2).get ⟨i, hi2⟩ =
        (updateJob jobs sel.jobId f1).get ⟨i, hlen1⟩ := by
      refine updateJob_get_ne _ sel.jobId f2 i hlen1 hi2 ?_
      rw [hinner]; exact hid
    rw [List.getElem?_eq_getElem hi2]
    have hgg : (updateJob (updateJob jobs sel.jobId f1) sel.jobId f2)[i] =
        (updateJob (updateJob jobs sel.jobId f1) sel.jobId f2).get ⟨i, hi2⟩ := rfl
    rw [hgg, houter, hinner]

/-- C5: once a job in either table is completed or failed, a processor step
(processNextJob) leaves its row untouched: only pending rows with due
available_at are ever selected, and every job-row UPDATE is keyed on the
selected row's job_id, so terminal statuses are absorbing (assuming unique
job ids, the tables' primary key). -/
theorem claim_C5
    (plugins : DB → String → String → Receipt → Except String (List Mutation))
    (db : DB) (now maxAttempts : Int)
    (hndR : (db.receiptJobs.map JobRow.jobId).Nodup)
    (hndD : (db.redeemJobs.map JobRow.jobId).Nodup) :
    (∀ i (hi : i < db.receiptJobs.length),
      ((db.receiptJobs.get ⟨i, hi⟩).status = JobStatus.completed ∨
        (db.receiptJobs.get ⟨i, hi⟩).status = JobStatus.failed) →
      ((processNextJob plugins db now maxAttempts).1.receiptJobs)[i]? =
        some (db.receiptJobs.get ⟨i, hi⟩)) ∧
    (∀ i (hi : i < db.redeemJobs.length),
      ((db.redeemJobs.get ⟨i, hi⟩).status = JobStatus.completed ∨
        (db.redeemJobs.get ⟨i, hi⟩).status = JobStatus.failed) →
      ((processNextJob plugins db now maxAttempts).1.redeemJobs)[i]? =
        some (db.redeemJobs.get ⟨i, hi⟩)) := by
  obtain ⟨hRd, hRr⟩ := processReceiptJob_shape plugins db now maxAttempts
  simp only [processNextJob]
  by_cases hb : (processReceiptJob plugins db now maxAttempts).2 = true
  · simp only [if_pos hb]
    constructor
    · intro i hi hterm
      exact terminal_preserved db.receiptJobs _ hndR hRr i hi hterm
    · intro i hi hterm
      exact terminal_preserved db.redeemJobs _ hndD (Or.inl hRd) i hi hterm
  · simp only [if_neg hb]
    obtain ⟨hDr, hDd⟩ :=
      processRedeemJob_shape (processReceiptJob plugins db now maxAttempts).1 now maxAttempts
    constructor
    · intro i hi hterm
      have hstep : (processRedeemJob (processReceiptJob plugins db now maxAttempts).1 now
          maxAttempts).1.receiptJobs = db.receiptJobs ∨
          ∃ sel f1 f2, sel ∈ db.receiptJobs ∧ sel.status = JobStatus.pending ∧
            (processRedeemJob (processReceiptJob plugins db now maxAttempts).1 now
              maxAttempts).1.receiptJobs =
              updateJob (updateJob db.receiptJobs sel.jobId f1) sel.jobId f2 := by
        rcases hRr with h1 | ⟨sel, f1, f2, hm, hp, h1⟩
        · left; rw [hDr, h1]
        · right; exact ⟨sel, f1, f2, hm, hp, by rw [hDr, h1]⟩
      exact terminal_preserved db.receiptJobs _ hndR hstep i hi hterm
    · intro i hi hterm
      have hstep : (processRedeemJob (processReceiptJob plugins db now maxAttempts).1 now
          maxAttempts).1.redeemJobs = db.redeemJobs ∨
          ∃ sel f1 f2, sel ∈ db.redeemJobs ∧ sel.status = JobStatus.pending ∧
            (processRedeemJob (processReceiptJob plugins db now maxAttempts).1 now
              maxAttempts).1.redeemJobs =
              updateJob (updateJob db.redeemJobs sel.jobId f1) sel.jobId f2 := by
        rcases hDd with h1 | ⟨sel, f1, f2, hm, hp, h1⟩
        · left; rw [h1, hRd]
        · right
          rw [hRd] at hm h1
          exact ⟨sel, f1, f2, hm, hp, h1⟩
      exact terminal_preserved db.redeemJobs _ hndD hstep i hi hterm

/-- A one-row database whose only receipt job is already completed. -/
def c5Job : JobRow := ⟨"j1", "t", "r1", JobStatus.completed, 1, none, none, 0, some 0, 0⟩

/-- See c5Job. -/
def c5Db : DB := ⟨0, [], [], [], [], [c5Job], [], [], [], [], [], []⟩

/-- Witness for C5 at a concrete database: the completed receipt job row
is untouched by a processor step. -/
theorem claim_C5_witness :
    ((processNextJob (fun _ _ _ _ => Except.ok []) c5Db 0 5).1.receiptJobs)[0]? =
      some (c5Db.receiptJobs.get ⟨0, by decide⟩) :=
  (claim_C5 (fun _ _ _ _ => Except.ok []) c5Db 0 5 (by decide) (by decide)).1 0
    (by decide) (Or.inl (by decide))

lemma updateJob_updateJob (l : List JobRow) (jid : String) (f1 f2 : JobRow → JobRow)
    (hpres : ∀ j, (f1 j).jobId = j.jobId) :
    updateJob (updateJob l jid f1) jid f2 = updateJob l jid (fun j => f2 (f1 j)) := by
  simp only [updateJob, List.map_map]
  apply List.map_congr_left
  intro j hj
  simp only [Function.comp_apply]
  by_cases h : j.jobId = jid
  · rw [if_pos h, if_pos h]
    rw [if_pos (by rw [hpres j]; exact h)]
  · rw [if_neg h, if_neg h, if_neg h]

/-- The C4 job: pending, attempts 0, referencing receipt r1. -/
def c4Job : JobRow := ⟨"j1", "t", "r1", JobStatus.pending, 0, none, none, 0, none, 0⟩

/-- The C4 database: one receipt job whose receipt row does not exist. -/
def c4Db : DB := ⟨0, [], [], [], [], [c4Job], [], [], [], [], [], []⟩

/-- C4 counterexample: a receipt job whose receipt row is missing is NOT
failed terminally on its first attempt: markJobAsFailed delegates to
rescheduleOrFail, so with attempts 1 < maxAttempts 5 the job goes back to
pending (with last_error "Receipt payload missing" and a 5s backoff), not
to failed. -/
theorem claim_C4_counterexample :
    ((processReceiptJob (fun _ _ _ _ => Except.ok []) c4Db 0 5).1.receiptJobs.map
      (fun j => (j.status, j.attempts, j.lastError, j.availableAt))) =
      [(JobStatus.pending, 1, some "Receipt payload missing", 5000)] ∧
    JobStatus.pending ≠ JobStatus.failed := by
  exact ⟨rfl, by decide⟩

/-- C4 amended: a selected receipt job whose receipt row is missing gets
last_error "Receipt payload missing", its attempts incremented, and is
rescheduled to pending with backoff min(60s, attempts*5s) while the
incremented attempt count is below maxAttempts; only at or beyond
maxAttempts does it become failed (with completed_at set). -/
theorem claim_C4_amended
    (plugins : DB → String → String → Receipt → Except String (List Mutation))
    (db : DB) (now maxAttempts : Int) (job : JobRow)
    (hsel : selectPendingJob now db.receiptJobs = some job)
    (hrec : findReceipt db job.referenceId = none) :
    (processReceiptJob plugins db now maxAttempts).1.receiptJobs =
      updateJob db.receiptJobs job.jobId (fun j =>
        { j with
            status := if job.attempts + 1 < maxAttempts then JobStatus.pending
              else JobStatus.failed,
            attempts := j.attempts + 1,
            lastError := some "Receipt payload missing",
            resultSummary := none,
            availableAt := if job.attempts + 1 < maxAttempts then
              now + min 60000 ((job.attempts + 1) * 5000) else now,
            completedAt := if job.attempts + 1 < maxAttempts then none
              else some now }) ∧
    (processReceiptJob plugins db now maxAttempts).2 = true := by
  have hrec2 : ∀ jobs2, findReceipt { db with receiptJobs := jobs2 } job.referenceId =
      none := fun _ => hrec
  rw [processReceiptJob]
  split
  · rename_i heq
    rw [hsel] at heq
    exact Option.noConfusion heq
  · rename_i job2 heq
    have hj := Option.some.inj (hsel.symm.trans heq)
    subst hj
    dsimp only
    split
    · constructor
      · dsimp only
        simp only [markJobAsFailed, rescheduleOrFail, getJobs, setJobs]
        by_cases hretry : job.attempts + 1 < maxAttempts
        · simp only [if_pos hretry]
          rw [updateJob_updateJob]
          · rfl
          · exact fun _ => rfl
        · simp only [if_neg hretry, queueJobNotification]
          rw [updateJob_updateJob]
          · rfl
          · exact fun _ => rfl
      · rfl
    · rename_i r heq2
      rw [hrec2 _] at heq2
      exact Option.noConfusion heq2

/-- Witness for C4 amended at the concrete one-job database: the row is
back to pending with attempts 1, error recorded, 5s backoff. -/
theorem claim_C4_amended_witness :
    (processReceiptJob (fun _ _ _ _ => Except.ok []) c4Db 0 5).1.receiptJobs =
      updateJob c4Db.receiptJobs c4Job.jobId (fun j =>
        { j with
            status := if c4Job.attempts + 1 < 5 then JobStatus.pending
              else JobStatus.failed,
            attempts := j.attempts + 1,
            lastError := some "Receipt payload missing",
            resultSummary := none,
            availableAt := if c4Job.attempts + 1 < 5 then
              (0 : Int) + min 60000 ((c4Job.attempts + 1) * 5000) else 0,
            completedAt := if c4Job.attempts + 1 < 5 then none
              else some (0 : Int) }) ∧
    (processReceiptJob (fun _ _ _ _ => Except.ok []) c4Db 0 5).2 = true :=
  claim_C4_amended (fun _ _ _ _ => Except.ok []) c4Db 0 5 c4Job rfl rfl

/-- The eligibleBalance computed by defaultRedeemPlugin.apply (the sum of
the global attribution amounts), replicated from the apply let chain. -/
def redeemEligibleBalance (db : DB) (now : Int) (tenantId : String)
    (redeem : RedeemReq) : Int :=
  let customerAccount := customerAccountId tenantId redeem.accountId
  let cross := (getProgramConfigDb db tenantId "default_points").bind
    (·.cross_brand_allocation)
  let partnerAccounts := ((cross.map (·.partners)).getD []).map
    (fun p => (⟨p.merchant_account, p.weight.getD 1⟩ : Partner))
  let burnMerchantId := redeem.burnMerchantId
  let unfrozenPartners := partnerAccounts.filter (fun p => ! isFrozen db tenantId p.accountId)
  let pm := (cross.map (·.partner_map)).getD []
  let attribution := getOutstandingAttribution db now tenantId customerAccount
    ⟨if unfrozenPartners.isEmpty then [merchantAccountId tenantId]
      else unfrozenPartners.map (·.accountId),
      pm, cross.bind (·.expiry_days), burnMerchantId⟩
  let globalAttribution :=
    if attribution.isEmpty then
      getOutstandingAttribution db now tenantId customerAccount
        ⟨[merchantAccountId tenantId], [], none, burnMerchantId⟩
    else attribution
  (globalAttribution.map (·.amount)).sum

lemma defaultRedeemApply_insufficient (db : DB) (now : Int) (tenantId : String)
    (redeem : RedeemReq) (hqty : 0 < redeem.qty)
    (hbal : redeemEligibleBalance db now tenantId redeem < redeem.qty) :
    defaultRedeemApply db now tenantId redeem =
      RedeemResult.failure "Insufficient balance" false := by
  simp only [redeemEligibleBalance] at hbal
  simp only [defaultRedeemApply]
  rw [if_neg (not_le.mpr hqty), if_pos hbal]

lemma getOutstandingAttribution_no_rule (db : DB) (now : Int)
    (tenantId customerAccount : String) (options : AttributionOptions)
    (hb : options.burnMerchantId.isSome = true)
    (hr : rulesFor db tenantId options.burnMerchantId = []) :
    getOutstandingAttribution db now tenantId customerAccount options = [] := by
  simp only [getOutstandingAttribution]
  by_cases hc : (options.partnerAccounts.filter (fun a => ! isFrozen db tenantId a)).isEmpty
  · rw [if_pos hc]
  · rw [if_neg hc, hr]
    simp [hb]

lemma redeemEligibleBalance_no_rule (db : DB) (now : Int) (tenantId : String)
    (redeem : RedeemReq) (hb : redeem.burnMerchantId.isSome = true)
    (hr : rulesFor db tenantId redeem.burnMerchantId = []) :
    redeemEligibleBalance db now tenantId redeem = 0 := by
  simp only [redeemEligibleBalance]
  rw [getOutstandingAttribution_no_rule]
  · rw [getOutstandingAttribution_no_rule]
    · simp
    · exact hb
    · exact hr
  · exact hb
  · exact hr

lemma completeJobWithFailure_journal (db : DB) (tbl : WhichTable) (job : JobRow)
    (reason : String) (now : Int) :
    (completeJobWithFailure db tbl job reason now).journal = db.journal := by
  cases tbl <;> rfl

lemma completeJobWithFailure_lots (db : DB) (tbl : WhichTable) (job : JobRow)
    (reason : String) (now : Int) :
    (completeJobWithFailure db tbl job reason now).lots = db.lots := by
  cases tbl <;> rfl

/-- C7: for a selected redeem job whose eligible attributed balance is below
the requested quantity, the DefaultRedeem plugin yields
failure("Insufficient balance", retryable = false); the processor then
finalizes the job as failed with last_error "Insufficient balance" and
writes no ledger entry (journal and lots untouched). The final conjunct
covers the burn_merchant_id-without-enabled-rule case: it forces the
eligible balance to 0, so any positive qty falls under the hypothesis. -/
theorem claim_C7 (db : DB) (now maxAttempts : Int) (p : JobRow × RedeemRequestRow)
    (hsel : selectRedeemJob db now = some p)
    (hprog : p.2.programId = "default_points") (hunit : p.2.unit = "points")
    (hqty : 0 < p.2.qty)
    (hbal : redeemEligibleBalance db now p.1.tenantId
      ⟨p.2.accountId, p.2.programId, p.2.unit, p.2.qty, p.2.memo, p.2.idempotencyKey,
        p.2.burnMerchantId, none⟩ < p.2.qty) :
    defaultRedeemApply db now p.1.tenantId
      ⟨p.2.accountId, p.2.programId, p.2.unit, p.2.qty, p.2.memo, p.2.idempotencyKey,
        p.2.burnMerchantId, none⟩ =
      RedeemResult.failure "Insufficient balance" false ∧
    (processRedeemJob db now maxAttempts).1.journal = db.journal ∧
    (processRedeemJob db now maxAttempts).1.lots = db.lots ∧
    (processRedeemJob db now maxAttempts).1.redeemJobs =
      updateJob db.redeemJobs p.1.jobId (fun j =>
        { j with
            status := JobStatus.failed, attempts := j.attempts + 1,
            lastError := some "Insufficient balance",
            resultSummary := some (JobSummary.failure "Insufficient balance"),
            completedAt := some now }) ∧
    (processRedeemJob db now maxAttempts).2 = true ∧
    (p.2.burnMerchantId.isSome = true →
      rulesFor db p.1.tenantId p.2.burnMerchantId = [] →
      redeemEligibleBalance db now p.1.tenantId
        ⟨p.2.accountId, p.2.programId, p.2.unit, p.2.qty, p.2.memo, p.2.idempotencyKey,
          p.2.burnMerchantId, none⟩ = 0) := by
  have hbalAll : ∀ jobs2, redeemEligibleBalance { db with redeemJobs := jobs2 } now
      p.1.tenantId ⟨p.2.accountId, p.2.programId, p.2.unit, p.2.qty, p.2.memo,
        p.2.idempotencyKey, p.2.burnMerchantId, none⟩ < p.2.qty := fun _ => hbal
  have happly := defaultRedeemApply_insufficient db now p.1.tenantId
    ⟨p.2.accountId, p.2.programId, p.2.unit, p.2.qty, p.2.memo, p.2.idempotencyKey,
      p.2.burnMerchantId, none⟩ hqty hbal
  refine ⟨happly, ?_⟩
  have hrunAll : ∀ jobs2, runRedeemPluginsModel { db with redeemJobs := jobs2 } now
      p.1.tenantId ⟨p.2.accountId, p.2.programId, p.2.unit, p.2.qty, p.2.memo,
        p.2.idempotencyKey, p.2.burnMerchantId, none⟩ =
      some (RedeemResult.failure "Insufficient balance" false) := by
    intro jobs2
    rw [runRedeemPluginsModel, if_pos ⟨hprog, hunit⟩]
    exact congrArg some (defaultRedeemApply_insufficient _ now p.1.tenantId _ hqty
      (hbalAll jobs2))
  rw [processRedeemJob]
  split
  · rename_i heq
    rw [hsel] at heq
    exact Option.noConfusion heq
  · rename_i picked heq
    have hp := Option.some.inj (hsel.symm.trans heq)
    subst hp
    dsimp only
    split
    · rename_i heq2
      rw [hrunAll] at heq2
      exact Option.noConfusion heq2
    · rename_i reason retryable heq2
      rw [hrunAll] at heq2
      have hfr := Option.some.inj heq2
      injection hfr with h1 h2
      subst h1
      subst h2
      simp only [Bool.false_eq_true, if_false]
      refine ⟨completeJobWithFailure_journal _ _ _ _ _,
        completeJobWithFailure_lots _ _ _ _ _, ?_, trivial, ?_⟩
      · simp only [completeJobWithFailure, queueJobNotification, getJobs, setJobs]
        rw [updateJob_updateJob]
        · rfl
        · exact fun _ => rfl
      · intro hb hr
        exact redeemEligibleBalance_no_rule db now p.1.tenantId _ hb hr
    · rename_i m heq2
      rw [hrunAll] at heq2
      have := Option.some.inj heq2
      exact RedeemResult.noConfusion this

/-- The C7 redeem job. -/
def c7Job : JobRow := ⟨"j1", "t", "req1", JobStatus.pending, 0, none, none, 0, none, 0⟩

/-- The C7 request: burn merchant bm has no rule, and there are no lots. -/
def c7Req : RedeemRequestRow :=
  ⟨"req1", "cust", "default_points", "points", 1, none, none, some "bm"⟩

/-- The C7 database. -/
def c7Db : DB := ⟨0, [], [], [], [], [], [c7Job], [c7Req], [], [], [], []⟩

/-- Witness for C7: qty 1 against a burn merchant with no enabled rule ends
the job failed with last_error "Insufficient balance" and no ledger write. -/
theorem claim_C7_witness :
    defaultRedeemApply c7Db 0 "t" ⟨"cust", "default_points", "points", 1, none, none,
      some "bm", none⟩ = RedeemResult.failure "Insufficient balance" false ∧
    (processRedeemJob c7Db 0 5).1.journal = c7Db.journal ∧
    (processRedeemJob c7Db 0 5).1.lots = c7Db.lots ∧
    (processRedeemJob c7Db 0 5).1.redeemJobs =
      updateJob c7Db.redeemJobs "j1" (fun j =>
        { j with
            status := JobStatus.failed, attempts := j.attempts + 1,
            lastError := some "Insufficient balance",
            resultSummary := some (JobSummary.failure "Insufficient balance"),
            completedAt := some (0 : Int) }) ∧
    (processRedeemJob c7Db 0 5).2 = true ∧
    ((some "bm" : Option String).isSome = true →
      rulesFor c7Db "t" (some "bm") = [] →
      redeemEligibleBalance c7Db 0 "t" ⟨"cust", "default_points", "points", 1, none, none,
        some "bm", none⟩ = 0) :=
  claim_C7 c7Db 0 5 (c7Job, c7Req) rfl rfl rfl (by decide) (by decide)

/-! ## C1: the committed partial state of a failed lot consumption -/

/-- The C1 program config: two partner accounts, default (priority)
strategy, no partner map, no expiry. -/
def c1Cfg : ProgramCfg :=
  ⟨some ⟨none, [⟨"accA", none, none⟩, ⟨"accB", none, none⟩], [], none⟩, none, [], none⟩

/-- Rule: earn merchant ma settles to accA when burning at bm. -/
def c1RuleA : MerchantRuleRow := ⟨"t", "ma", "accA", "bm", none, none, true⟩

/-- Rule: earn merchant mb settles to accB when burning at bm. -/
def c1RuleB : MerchantRuleRow := ⟨"t", "mb", "accB", "bm", none, none, true⟩

/-- One point earned at ma. -/
def c1LotA : Lot :=
  ⟨"lotA", "t", "default_points", "points", "t::acct::cust", some "ma", 1, 1, none, 0⟩

/-- One point earned at mb. -/
def c1LotB : Lot :=
  ⟨"lotB", "t", "default_points", "points", "t::acct::cust", some "mb", 1, 1, none, 0⟩

/-- Redemption of 2 points at burn merchant bm. -/
def c1Req : RedeemRequestRow :=
  ⟨"req1", "cust", "default_points", "points", 2, none, none, some "bm"⟩

/-- The pending redeem job for c1Req. -/
def c1Job : JobRow := ⟨"j1", "t", "req1", JobStatus.pending, 0, none, none, 0, none, 0⟩

/-- The C1 database: eligible balance 2 (one lot at each merchant), but the
priority allocation sends the whole qty 2 to accA, whose scope holds only
lotA with 1 point, so consumeLots throws after decrementing lotA. -/
def c1Db : DB := ⟨0, [], [], [], [c1LotA, c1LotB], [], [c1Job], [c1Req],
  [⟨"t", "default_points", c1Cfg⟩], [c1RuleA, c1RuleB], [], []⟩

/-- C1: processRedeemJob at c1Db. consumeLots throws "Insufficient eligible
points in lots to cover redemption" after decrementing lotA to 0, yet the
committed state keeps the journal entry, the decremented lot, and the
rescheduled job (attempts 1): the catch sits inside the body given to
withTransaction (modelled from the spec as committing whenever the body
returns normally), so the partial state persists instead of being rolled
back as the spec's atomicity paragraph requires. -/
theorem claim_C1 :
    (processRedeemJob c1Db 0 5).1.journal.length = 1 ∧
    ((processRedeemJob c1Db 0 5).1.lots.map Lot.qtyRemaining) = [0, 1] ∧
    ((processRedeemJob c1Db 0 5).1.redeemJobs.map (fun j =>
      (j.status, j.attempts, j.lastError))) =
      [(JobStatus.pending, 1,
        some "Insufficient eligible points in lots to cover redemption")] ∧
    (processRedeemJob c1Db 0 5).2 = true := by
  refine ⟨?_, ?_, ?_, ?_⟩ <;> decide

end LoyaltyLedger
